import Mathlib

/-!
Verification of the instrumentation-marker lifecycle and log-correlation core of
the `opencode-debug-helper` repository, shallowly embedded in Lean.

Strings are modelled as `List Char`.  File contents are plain character lists;
line splitting/joining mirrors JavaScript `String.prototype.split("\n")` and
`Array.prototype.join("\n")`.  Regular-expression tests from the source are
translated into explicit character-list scanners with the same semantics on
the fixed patterns involved.
-/

namespace DebugHelper

/-- The characters matched by JavaScript's `\s` class that can realistically
occur here (ASCII whitespace, NBSP, line/paragraph separator, BOM).  The
exotic Unicode space classes (U+1680, U+2000–U+200A, U+202F, U+205F, U+3000)
are omitted; no theorem below depends on them. -/
def jsSpace (c : Char) : Bool :=
  c == ' ' || c == '\t' || c == '\n' || c == '\r' || c == '\x0b' || c == '\x0c' ||
  c == '\xa0' || c == '\u2028' || c == '\u2029' || c == '\ufeff'

/-- One character of the `[a-z0-9]` class used by the marker-id regexes. -/
def idChar (c : Char) : Bool :=
  (decide ('a' ≤ c) && decide (c ≤ 'z')) || (decide ('0' ≤ c) && decide (c ≤ '9'))

/-- Function `splitNl` mirrors JavaScript `content.split("\n")`: the empty string gives
`[""]`, and every `'\n'` separates two (possibly empty) lines. -/
def splitNl : List Char → List (List Char)
  | [] => [[]]
  | c :: cs =>
    if c = '\n' then [] :: splitNl cs
    else
      match splitNl cs with
      | [] => [[c]]
      | l :: ls => (c :: l) :: ls

/-- Function `joinNl` mirrors JavaScript `lines.join("\n")`. -/
def joinNl : List (List Char) → List Char
  | [] => []
  | [l] => l
  | l :: ls => l ++ '\n' :: joinNl ls

/-- Function `dropPref pat s` returns `some rest` when `pat` is a prefix of `s` and
`rest` is the remainder, `none` otherwise. -/
def dropPref : List Char → List Char → Option (List Char)
  | [], s => some s
  | _ :: _, [] => none
  | p :: ps, c :: cs => if p = c then dropPref ps cs else none

/-- Boolean prefix test derived from `dropPref`. -/
def isPref (pat s : List Char) : Bool := (dropPref pat s).isSome

/-- First occurrence replacement, mirroring JavaScript
`String.prototype.replace(pattern, replacement)` with a *string* pattern.
(`$`-substitution patterns in the replacement, per GetSubstitution, are not
modelled; every replacement below either contains no `$` or is covered by the
theorems' hypotheses.) -/
def replFirstAux (pat repl : List Char) : List Char → List Char
  | [] =>
    match dropPref pat [] with
    | some rest => repl ++ rest
    | none => []
  | c :: cs =>
    match dropPref pat (c :: cs) with
    | some rest => repl ++ rest
    | none => c :: replFirstAux pat repl cs

/-- Function `jsReplace s pat repl` is JavaScript `s.replace(pat, repl)`. -/
def jsReplace (s pat repl : List Char) : List Char := replFirstAux pat repl s

/-- Substring test (`String.prototype.includes`-like), used to state results. -/
def containsSeq (pat : List Char) : List Char → Bool
  | [] => decide (pat = [])
  | c :: cs => isPref pat (c :: cs) || containsSeq pat cs

/-- The literal `[DEBUG-HELPER:` that opens every marker tag. -/
def markerTagPre : List Char := "[DEBUG-HELPER:".data

/-- The rendered tag `[DEBUG-HELPER:<id>]` as a character list. -/
def tagStr (id : List Char) : List Char := markerTagPre ++ id ++ [']']

/-- Try to match the regex `\[DEBUG-HELPER:([a-z0-9]+)\]` at the head of the
line; on success return the captured id and the remainder after `]`.  The
`[a-z0-9]+` is greedy and, since `]` is not an id character, backtracking can
never produce a different match, so taking the maximal run is exact. -/
def matchTagHere (l : List Char) : Option (List Char × List Char) :=
  match dropPref markerTagPre l with
  | none => none
  | some rest =>
    match rest.dropWhile idChar with
    | ']' :: tail =>
      if rest.takeWhile idChar = [] then none
      else some (rest.takeWhile idChar, tail)
    | _ => none

/-- Leftmost match of `\[DEBUG-HELPER:([a-z0-9]+)\]` in a line. -/
def scanTag : List Char → Option (List Char × List Char)
  | [] => none
  | c :: cs =>
    match matchTagHere (c :: cs) with
    | some r => some r
    | none => scanTag cs

/-- Function `extractMarkerId` from `instrumentation-patterns.ts`:
`line.match(/\[DEBUG-HELPER:([a-z0-9]+)\]/)`, first capture group. -/
def extractMarkerId (l : List Char) : Option (List Char) :=
  Option.map Prod.fst (scanTag l)

/-- Does the line contain a full tag immediately followed by the word `w`
(i.e. does `\[DEBUG-HELPER:[a-z0-9]+\]<w>` match anywhere)? -/
def hasTagWord (w : List Char) : List Char → Bool
  | [] => false
  | c :: cs =>
    (match matchTagHere (c :: cs) with
     | some r => isPref w r.2
     | none => false)
    || hasTagWord w cs

/-- Test `isStartMarker`: `/\[DEBUG-HELPER:[a-z0-9]+\] START/.test(line)`. -/
def isStartMarker (l : List Char) : Bool := hasTagWord " START".data l

/-- Test `isEndMarker`: `/\[DEBUG-HELPER:[a-z0-9]+\] END/.test(line)`. -/
def isEndMarker (l : List Char) : Bool := hasTagWord " END".data l

/-- One instrumentation template, mirroring `InstrumentationPattern` in
`instrumentation-patterns.ts`.  Placeholders in `log_template` are written
with literal braces. -/
structure InstrumentationPattern where
  log_template : List Char
  start_marker : List Char → List Char
  end_marker : List Char → List Char
  extensions : List (List Char)
  comment_single : List Char
  comment_multi : Option (List Char × List Char)

/-- Pattern `JS_TS_PATTERN` from the source. -/
def JS_TS_PATTERN : InstrumentationPattern where
  log_template := "console.log(\"[\x7bmarker_id\x7d] \x7blabel\x7d:\", \x7bexpression\x7d);".data
  start_marker := fun id => "// [DEBUG-HELPER:".data ++ id ++ "] START".data
  end_marker := fun id => "// [DEBUG-HELPER:".data ++ id ++ "] END".data
  extensions := [".js".data, ".jsx".data, ".ts".data, ".tsx".data, ".mjs".data, ".cjs".data, ".mts".data, ".cts".data]
  comment_single := "//".data
  comment_multi := some ("/*".data, "*/".data)

/-- Pattern `PYTHON_PATTERN` from the source (the f-string template escapes the value
braces as a doubled brace pair). -/
def PYTHON_PATTERN : InstrumentationPattern where
  log_template := "print(f\"[\x7bmarker_id\x7d] \x7blabel\x7d: \x7b\x7bexpression\x7d\x7d\")".data
  start_marker := fun id => "# [DEBUG-HELPER:".data ++ id ++ "] START".data
  end_marker := fun id => "# [DEBUG-HELPER:".data ++ id ++ "] END".data
  extensions := [".py".data]
  comment_single := "#".data
  comment_multi := none

/-- Pattern `RUST_PATTERN` from the source. -/
def RUST_PATTERN : InstrumentationPattern where
  log_template := "eprintln!(\"[\x7bmarker_id\x7d] \x7blabel\x7d: \x7b:?\x7d\", \x7bexpression\x7d);".data
  start_marker := fun id => "// [DEBUG-HELPER:".data ++ id ++ "] START".data
  end_marker := fun id => "// [DEBUG-HELPER:".data ++ id ++ "] END".data
  extensions := [".rs".data]
  comment_single := "//".data
  comment_multi := some ("/*".data, "*/".data)

/-- Pattern `GO_PATTERN` from the source (the `\\n` in the TS literal is a literal
backslash-n two-character sequence). -/
def GO_PATTERN : InstrumentationPattern where
  log_template := "fmt.Printf(\"[\x7bmarker_id\x7d] \x7blabel\x7d: %+v\\n\", \x7bexpression\x7d)".data
  start_marker := fun id => "// [DEBUG-HELPER:".data ++ id ++ "] START".data
  end_marker := fun id => "// [DEBUG-HELPER:".data ++ id ++ "] END".data
  extensions := [".go".data]
  comment_single := "//".data
  comment_multi := some ("/*".data, "*/".data)

/-- The four language patterns in source order. -/
def allPatterns : List InstrumentationPattern :=
  [JS_TS_PATTERN, PYTHON_PATTERN, RUST_PATTERN, GO_PATTERN]

/-- The extension table `PATTERNS_BY_EXTENSION` (no two patterns share an
extension, so first-match lookup agrees with the JS object). -/
def extensionTable : List (List Char × InstrumentationPattern) :=
  (allPatterns.map fun p => p.extensions.map fun e => (e, p)).flatten

/-- JavaScript `filePath.substring(filePath.lastIndexOf("."))`: the suffix
starting at the last dot, or (via `substring(-1)` clamping to 0) the whole
path when there is no dot. -/
def sufFromLastDot : List Char → Option (List Char)
  | [] => none
  | c :: cs =>
    match sufFromLastDot cs with
    | some s => some s
    | none => if c = '.' then some (c :: cs) else none

/-- Extension string used as the table key by `getPatternForFile`. -/
def extKeyOf (path : List Char) : List Char := (sufFromLastDot path).getD path

/-- Function `getPatternForFile` from the source: `PATTERNS_BY_EXTENSION[ext] || null`. -/
def getPatternForFile (path : List Char) : Option InstrumentationPattern :=
  Option.map Prod.snd (extensionTable.find? fun e => e.1 == extKeyOf path)

/-- JavaScript `s.substring(a, b)`: both indices are clamped to the string
length and swapped if out of order. -/
def jsSubstring (s : List Char) (a b : Nat) : List Char :=
  (s.take (max (min a s.length) (min b s.length))).drop (min (min a s.length) (min b s.length))

/-- Function `generateMarkerId` from the source is
`Math.random().toString(36).substring(2, 10)`.  The process-wide random
double is represented here by its base-36 string ("0", or "0." followed by
base-36 digits, which are exactly the characters `[0-9a-z]`); floating-point
formatting itself is outside the embedding. -/
def generateMarkerId (randomBase36 : List Char) : List Char :=
  jsSubstring randomBase36 2 10

/-- The log-statement line produced by `buildInstrumentationBlock` before
indentation: the exact `.replace` chains of the source, for the
`expression`-present and `expression`-omitted branches. -/
def renderLogLine (p : InstrumentationPattern) (markerId label : List Char)
    (expression : Option (List Char)) : List Char :=
  match expression with
  | some expr =>
    jsReplace
      (jsReplace
        (jsReplace
          (jsReplace p.log_template "\x7bmarker_id\x7d".data markerId)
          "\x7blabel\x7d".data label)
        "\x7bexpression\x7d".data expr)
      "\x7b\x7bexpression\x7d\x7d".data ('\x7b' :: (expr ++ ['\x7d']))
  | none =>
    jsReplace
      (jsReplace
        (jsReplace
          (jsReplace
            (jsReplace
              (jsReplace
                (jsReplace p.log_template "\x7bmarker_id\x7d".data markerId)
                "\x7blabel\x7d".data label)
              ", \x7bexpression\x7d".data [])
            ": \x7bexpression\x7d".data [])
          ": \x7b\x7bexpression\x7d\x7d".data [])
        ": \x7b:?\x7d\", \x7bexpression\x7d".data "\"".data)
      ": %+v\\n\", \x7bexpression\x7d".data "\\n\"".data

/-- Function `buildInstrumentationBlock`: three lines (start marker, log statement,
end marker), each prefixed by `indent`, joined with newlines. -/
def buildInstrumentationBlock (p : InstrumentationPattern) (markerId label : List Char)
    (expression : Option (List Char)) (indent : List Char) : List Char :=
  (indent ++ p.start_marker markerId) ++
    '\n' :: ((indent ++ renderLogLine p markerId label expression) ++
      '\n' :: (indent ++ p.end_marker markerId))

/-- The leading whitespace of line `n` (1-based), as read by
`addInstrumentationTool` via `targetLine.match(/^(\s*)/)`. -/
def indentOf (content : List Char) (n : Nat) : List Char :=
  ((splitNl content).getD (n - 1) []).takeWhile jsSpace

/-- The successful file transformation of `addInstrumentationTool`: split the
content, render the block with the target line's indentation, splice it in as
one array element immediately after line `n` (`lines.splice(line, 0, block)`)
and re-join. -/
def spliceBlock (p : InstrumentationPattern) (markerId label : List Char)
    (expression : Option (List Char)) (n : Nat) (content : List Char) : List Char :=
  joinNl ((splitNl content).take n ++
    [buildInstrumentationBlock p markerId label expression (indentOf content n)] ++
    (splitNl content).drop n)

/-- The line loop of `removeInstrumentationBlock`: `inT` is the
`inTargetBlock` flag; start/end lines carrying the target id are always
dropped and toggle the flag, lines inside the flag are dropped, everything
else is kept. -/
def removeAux (markerId : List Char) : Bool → List (List Char) → List (List Char)
  | _, [] => []
  | inT, l :: ls =>
    if isStartMarker l = true ∧ extractMarkerId l = some markerId then
      removeAux markerId true ls
    else if isEndMarker l = true ∧ extractMarkerId l = some markerId then
      removeAux markerId false ls
    else if inT = true then
      removeAux markerId inT ls
    else
      l :: removeAux markerId inT ls

/-- Function `removeInstrumentationBlock(content, markerId)` from the source. -/
def removeInstrumentationBlock (content markerId : List Char) : List Char :=
  joinNl (removeAux markerId false (splitNl content))

/-- The open-block state of the `findInstrumentationBlocks` scan. -/
structure OpenBlock where
  markerId : List Char
  startLine : Nat
  lines : List (List Char)

/-- A block reported by `findInstrumentationBlocks` (1-based line numbers). -/
structure FoundBlock where
  markerId : List Char
  startLine : Nat
  endLine : Nat
  content : List Char
  deriving DecidableEq

/-- The scanning loop of `findInstrumentationBlocks`; `i` is the 1-based
number of the next line.  A start-marker line always (re)opens a block; an
end-marker line closes the open block only when the ids agree (on a mismatch
the line is skipped and the open block kept); other lines are appended to the
open block's content. -/
def findAux : List (List Char) → Nat → Option OpenBlock → List FoundBlock
  | [], _, _ => []
  | l :: ls, i, cur =>
    if isStartMarker l = true then
      match extractMarkerId l with
      | some id => findAux ls (i + 1) (some ⟨id, i, [l]⟩)
      | none => findAux ls (i + 1) cur
    else if isEndMarker l = true then
      match cur with
      | some c =>
        if extractMarkerId l = some c.markerId then
          ⟨c.markerId, c.startLine, i, joinNl (c.lines ++ [l])⟩ :: findAux ls (i + 1) none
        else
          findAux ls (i + 1) (some c)
      | none => findAux ls (i + 1) none
    else
      match cur with
      | some c => findAux ls (i + 1) (some ⟨c.markerId, c.startLine, c.lines ++ [l]⟩)
      | none => findAux ls (i + 1) none

/-- Function `findInstrumentationBlocks(content, _filePath)` from the source (the file
path argument is unused there). -/
def findInstrumentationBlocks (content : List Char) : List FoundBlock :=
  findAux (splitNl content) 1 none

/-- Structure `InstrumentationMarker` from the source. -/
structure InstrumentationMarker where
  id : List Char
  file_path : List Char
  line_start : Nat
  line_end : Nat
  label : List Char
  expression : Option (List Char)
  created_at : List Char
  deriving DecidableEq

/-- The state a tool invocation reads and writes: the session's marker list
and the file system, the latter as an association list from path to content. -/
structure SessionFsState where
  markers : List InstrumentationMarker
  files : List (List Char × List Char)
  deriving DecidableEq

/-- Content of a file, or `none` when `existsSync` is false. -/
def lookupFile (files : List (List Char × List Char)) (path : List Char) :
    Option (List Char) :=
  Option.map Prod.snd (files.find? fun e => e.1 == path)

/-- Overwrite the content stored for `path`. -/
def updateFile (files : List (List Char × List Char)) (path content : List Char) :
    List (List Char × List Char) :=
  files.map fun e => if e.1 == path then (e.1, content) else e

/-- Outcomes of `addInstrumentationTool.execute`, in the order its guards
appear: `Error: File not found`, `Error: Unsupported file type`,
`Error: Line ... out of range`, and the success message. -/
inductive AddOutcome where
  | fileNotFound
  | unsupportedFileType
  | lineOutOfRange
  | added
  deriving DecidableEq

/-- Function `addInstrumentationTool.execute`: guards in source order (existence,
pattern, line range), then splice the rendered block after line `line`, write
the file back, and append the marker record
(`line_start = line + 1`, `line_end = line + 3`) to the session. The minted
random id and the timestamp are parameters. -/
def addTool (st : SessionFsState) (path : List Char) (line : Int)
    (markerId label : List Char) (expression : Option (List Char))
    (createdAt : List Char) : SessionFsState × AddOutcome :=
  match lookupFile st.files path with
  | none => (st, AddOutcome.fileNotFound)
  | some content =>
    match getPatternForFile path with
    | none => (st, AddOutcome.unsupportedFileType)
    | some p =>
      if line < 1 ∨ line > ((splitNl content).length : Int) then
        (st, AddOutcome.lineOutOfRange)
      else
        (⟨st.markers ++
            [⟨markerId, path, line.toNat + 1, line.toNat + 3, label, expression, createdAt⟩],
          updateFile st.files path
            (spliceBlock p markerId label expression line.toNat content)⟩,
         AddOutcome.added)

/-- Outcomes of `removeInstrumentationTool.execute`:
`markerNotInSession` is the `Error: Marker ... not found in session` return,
`fileMissing` the `Warning: File ... no longer exists` return,
`alreadyGone` the `Warning: Marker ... not found in file ... Cleaned up
session` return, and `removed` the success return. -/
inductive RemoveOutcome where
  | markerNotInSession
  | fileMissing
  | alreadyGone
  | removed
  deriving DecidableEq

/-- Function `removeInstrumentationTool.execute`, mirroring the source line by line. -/
def removeTool (st : SessionFsState) (markerId : List Char) :
    SessionFsState × RemoveOutcome :=
  match st.markers.find? (fun m => m.id == markerId) with
  | none => (st, RemoveOutcome.markerNotInSession)
  | some m =>
    match lookupFile st.files m.file_path with
    | none =>
      (⟨st.markers.filter fun mm => !(mm.id == markerId), st.files⟩,
       RemoveOutcome.fileMissing)
    | some content =>
      if removeInstrumentationBlock content markerId = content then
        (⟨st.markers.filter fun mm => !(mm.id == markerId), st.files⟩,
         RemoveOutcome.alreadyGone)
      else
        (⟨st.markers.filter fun mm => !(mm.id == markerId),
          updateFile st.files m.file_path (removeInstrumentationBlock content markerId)⟩,
         RemoveOutcome.removed)

/-- Match categories produced by `parseLogContent` (the `info`/`debug`
members of the source's union type are never produced and are omitted). -/
inductive MatchType where
  | error
  | warning
  | debugHelper
  deriving DecidableEq

/-- Structure `LogMatch` from `log-patterns.ts` (`line` is 1-based). -/
structure LogMatch where
  type : MatchType
  line : Nat
  content : List Char
  marker_id : Option (List Char)
  details : Option (List Char)
  deriving DecidableEq

/-- Continuation test `/^\s+at\s+/` (JS stack frame). -/
def contFrameAt (l : List Char) : Bool :=
  decide (l.takeWhile jsSpace ≠ []) &&
    (match l.dropWhile jsSpace with
     | 'a' :: 't' :: c :: _ => jsSpace c
     | _ => false)

/-- Continuation test `/^\s+File\s+"/` (Python traceback frame). -/
def contFrameFile (l : List Char) : Bool :=
  decide (l.takeWhile jsSpace ≠ []) &&
    (match dropPref "File".data (l.dropWhile jsSpace) with
     | some rest =>
       decide (rest.takeWhile jsSpace ≠ []) &&
         (match rest.dropWhile jsSpace with
          | '\"' :: _ => true
          | _ => false)
     | none => false)

/-- One ASCII digit, as matched by `\d`. -/
def digitChar (c : Char) : Bool := decide ('0' ≤ c) && decide (c ≤ '9')

/-- Continuation test `/^\s+\d+:\s+/` (Rust backtrace frame). -/
def contFrameNum (l : List Char) : Bool :=
  decide (l.takeWhile jsSpace ≠ []) &&
    (let r := l.dropWhile jsSpace
     decide (r.takeWhile digitChar ≠ []) &&
       (match r.dropWhile digitChar with
        | ':' :: c :: _ => jsSpace c
        | _ => false))

/-- Continuation test `/^\s+/` (any indented line; this last disjunct of the
source subsumes the three frame shapes above, which are kept for fidelity). -/
def contIndented (l : List Char) : Bool :=
  match l with
  | c :: _ => jsSpace c
  | [] => false

/-- The four-way disjunction deciding whether a line continues an error's
context in `extractErrorContext`. -/
def isContinuationLine (l : List Char) : Bool :=
  contFrameAt l || contFrameFile l || contFrameNum l || contIndented l

/-- Bound constant `maxContext` of `extractErrorContext`. -/
def maxContext : Nat := 10

/-- The list of context lines collected by `extractErrorContext(lines,
errorIndex)`.  The source loop runs `i` from `errorIndex + 1` while
`i < Math.min(lines.length, errorIndex + maxContext)`, i.e. over at most
`maxContext - 1` lines, stopping at the first non-continuation line. -/
def extractErrorContextLines (lines : List (List Char)) (errorIndex : Nat) :
    List (List Char) :=
  (((lines.drop (errorIndex + 1)).take (maxContext - 1)).takeWhile isContinuationLine)

/-- Function `extractErrorContext` returns the collected lines joined with newlines. -/
def extractErrorContext (lines : List (List Char)) (errorIndex : Nat) : List Char :=
  joinNl (extractErrorContextLines lines errorIndex)

/-- Function `parseLogContent`, with the two regex batteries abstracted as line
predicates: `errT l` means some pattern of `ERROR_PATTERNS` matches `l`,
`warnT l` likewise for `WARNING_PATTERNS`.  Marker recognition
(`DEBUG_HELPER_PATTERN`) is the same regex as `extractMarkerId` and
short-circuits the other categories; error matches carry the extracted
context as `details`. -/
def parseLogContent (errT warnT : List Char → Bool) (content : List Char) :
    List LogMatch :=
  (List.range (splitNl content).length).filterMap fun i =>
    match extractMarkerId ((splitNl content).getD i []) with
    | some id =>
      some ⟨MatchType.debugHelper, i + 1, (splitNl content).getD i [], some id, none⟩
    | none =>
      if errT ((splitNl content).getD i []) then
        some ⟨MatchType.error, i + 1, (splitNl content).getD i [], none,
          some (extractErrorContext (splitNl content) i)⟩
      else if warnT ((splitNl content).getD i []) then
        some ⟨MatchType.warning, i + 1, (splitNl content).getD i [], none, none⟩
      else
        none

/-- Function `filterDebugHelperOutput` from the source. -/
def filterDebugHelperOutput (ms : List LogMatch) : List LogMatch :=
  ms.filter fun m => m.type == MatchType.debugHelper

/-- Function `filterErrors` from the source. -/
def filterErrors (ms : List LogMatch) : List LogMatch :=
  ms.filter fun m => m.type == MatchType.error

/-- Marker ids carried by a match list; membership in this list is exactly
membership in the `hitMarkers` set built by `correlateLogsWithMarkersTool`. -/
def hitMarkerIds (ms : List LogMatch) : List (List Char) :=
  ms.filterMap fun m => m.marker_id

/-- The `markerOrder` loop of `correlateLogsWithMarkersTool`: record the
line of the first occurrence of every marker id, preserving first-seen
order; `seen` plays the role of the `hitMarkers` set. -/
def markerOrderAux : List LogMatch → List (List Char) → List (List Char × Nat)
  | [], _ => []
  | m :: ms, seen =>
    match m.marker_id with
    | some id =>
      if id ∈ seen then markerOrderAux ms seen
      else (id, m.line) :: markerOrderAux ms (id :: seen)
    | none => markerOrderAux ms seen

/-- Debug-helper matches of the parsed log, as used by the correlate tool. -/
def debugMatches (errT warnT : List Char → Bool) (content : List Char) :
    List LogMatch :=
  filterDebugHelperOutput (parseLogContent errT warnT content)

/-- The Marker Status table of the correlate tool: each session marker
paired with its HIT/NOT-HIT flag. -/
def markerStatuses (markers : List InstrumentationMarker) (dm : List LogMatch) :
    List (InstrumentationMarker × Bool) :=
  markers.map fun m => (m, decide (m.id ∈ hitMarkerIds dm))

/-- The `missedMarkers` list of the correlate tool:
`markers.filter((m) => !hitMarkers.has(m.id))`. -/
def missedMarkers (markers : List InstrumentationMarker) (dm : List LogMatch) :
    List InstrumentationMarker :=
  markers.filter fun m => !(decide (m.id ∈ hitMarkerIds dm))

/-- The inferred execution order: marker ids in first-seen order. -/
def executionOrder (dm : List LogMatch) : List (List Char) :=
  (markerOrderAux dm []).map Prod.fst

theorem splitNl_ne_nil (l : List Char) : splitNl l ≠ [] := by
  induction l with
  | nil => simp [splitNl]
  | cons c cs ih =>
    by_cases hc : c = '\n'
    · simp [splitNl, hc]
    · rcases h : splitNl cs with _ | ⟨l0, ls0⟩
      · exact absurd h ih
      · simp [splitNl, hc, h]

theorem joinNl_cons (a : List Char) (ls : List (List Char)) (h : ls ≠ []) :
    joinNl (a :: ls) = a ++ '\n' :: joinNl ls := by
  cases ls with
  | nil => exact absurd rfl h
  | cons b bs => rfl

theorem joinNl_splitNl (l : List Char) : joinNl (splitNl l) = l := by
  induction l with
  | nil => rfl
  | cons c cs ih =>
    by_cases hc : c = '\n'
    · subst hc
      rw [show splitNl ('\n' :: cs) = [] :: splitNl cs from by simp [splitNl]]
      rw [joinNl_cons _ _ (splitNl_ne_nil cs)]
      simp [ih]
    · rcases h : splitNl cs with _ | ⟨l0, ls0⟩
      · exact absurd h (splitNl_ne_nil cs)
      · have hs : splitNl (c :: cs) = (c :: l0) :: ls0 := by simp [splitNl, hc, h]
        rw [hs]
        rw [h] at ih
        rcases ls0 with _ | ⟨l1, ls1⟩
        · simpa [joinNl] using congrArg (c :: ·) ih
        · rw [joinNl_cons _ _ (by simp)]
          rw [joinNl_cons _ _ (by simp)] at ih
          simpa using congrArg (c :: ·) ih

theorem splitNl_append_nl (x y : List Char) :
    splitNl (x ++ '\n' :: y) = splitNl x ++ splitNl y := by
  induction x with
  | nil => simp [splitNl]
  | cons c cs ih =>
    by_cases hc : c = '\n'
    · subst hc
      show splitNl ('\n' :: (cs ++ '\n' :: y)) = splitNl ('\n' :: cs) ++ splitNl y
      simp [splitNl, ih]
    · rcases h : splitNl cs with _ | ⟨l0, ls0⟩
      · exact absurd h (splitNl_ne_nil cs)
      · have h2 : splitNl (cs ++ '\n' :: y) = l0 :: (ls0 ++ splitNl y) := by
          rw [ih, h]; rfl
        show splitNl (c :: (cs ++ '\n' :: y)) = splitNl (c :: cs) ++ splitNl y
        simp [splitNl, hc, h, h2]

theorem splitNl_eq_single (l : List Char) (h : ∀ c ∈ l, c ≠ '\n') :
    splitNl l = [l] := by
  induction l with
  | nil => rfl
  | cons c cs ih =>
    have hc : c ≠ '\n' := h c (by simp)
    have := ih (fun d hd => h d (by simp [hd]))
    simp [splitNl, hc, this]

theorem mem_splitNl_flat (l : List Char) :
    ∀ s ∈ splitNl l, ∀ c ∈ s, c ≠ '\n' := by
  induction l with
  | nil =>
    intro s hs
    simp [splitNl] at hs
    simp [hs]
  | cons c0 cs ih =>
    intro s hs c hc
    by_cases h0 : c0 = '\n'
    · rw [show splitNl (c0 :: cs) = [] :: splitNl cs from by simp [splitNl, h0]] at hs
      rcases List.mem_cons.mp hs with hs | hs
      · simp [hs] at hc
      · exact ih s hs c hc
    · rcases h : splitNl cs with _ | ⟨l0, ls0⟩
      · exact absurd h (splitNl_ne_nil cs)
      · rw [show splitNl (c0 :: cs) = (c0 :: l0) :: ls0 from by simp [splitNl, h0, h]] at hs
        rcases List.mem_cons.mp hs with hs | hs
        · rw [hs] at hc
          rcases List.mem_cons.mp hc with hc | hc
          · simpa [hc] using h0
          · exact ih l0 (by simp [h]) c hc
        · exact ih s (by simp [h, hs]) c hc

theorem splitNl_joinNl_flat (ls : List (List Char)) (hne : ls ≠ [])
    (hflat : ∀ s ∈ ls, ∀ c ∈ s, c ≠ '\n') : splitNl (joinNl ls) = ls := by
  induction ls with
  | nil => exact absurd rfl hne
  | cons a rest ih =>
    cases rest with
    | nil => simpa [joinNl] using splitNl_eq_single a (hflat a (by simp))
    | cons b bs =>
      rw [joinNl_cons _ _ (by simp), splitNl_append_nl,
        splitNl_eq_single a (hflat a (by simp)),
        ih (by simp) (fun s hs => hflat s (by simp [hs]))]
      rfl

theorem splitNl_joinNl_mixed (A B : List (List Char)) (x : List Char)
    (hA : A ≠ []) (hAflat : ∀ s ∈ A, ∀ c ∈ s, c ≠ '\n')
    (hBflat : ∀ s ∈ B, ∀ c ∈ s, c ≠ '\n') :
    splitNl (joinNl (A ++ x :: B)) = A ++ splitNl x ++ B := by
  induction A with
  | nil => exact absurd rfl hA
  | cons a A2 ih =>
    cases A2 with
    | nil =>
      rw [show ([a] ++ x :: B) = a :: x :: B from rfl,
        joinNl_cons _ _ (by simp), splitNl_append_nl,
        splitNl_eq_single a (hAflat a (by simp))]
      cases B with
      | nil => simp [joinNl]
      | cons b bs =>
        rw [joinNl_cons _ _ (by simp), splitNl_append_nl,
          splitNl_joinNl_flat (b :: bs) (by simp)
            (fun s hs => hBflat s hs)]
        simp
    | cons a2 A3 =>
      rw [show ((a :: a2 :: A3) ++ x :: B) = a :: ((a2 :: A3) ++ x :: B) from rfl,
        joinNl_cons _ _ (by simp), splitNl_append_nl,
        splitNl_eq_single a (hAflat a (by simp)),
        ih (by simp) (fun s hs => hAflat s (by simp [hs]))]
      rfl

theorem idChar_no (c : Char) (h : idChar c = true) :
    c ≠ '[' ∧ c ≠ '\n' ∧ c ≠ ']' := by
  refine ⟨?_, ?_, ?_⟩ <;> intro hc <;> rw [hc] at h <;> exact absurd h (by decide)

theorem jsSpace_no_lbrack (c : Char) (h : jsSpace c = true) : c ≠ '[' := by
  intro hc; rw [hc] at h; exact absurd h (by decide)

theorem dropPref_self_append (p x : List Char) : dropPref p (p ++ x) = some x := by
  induction p with
  | nil => rfl
  | cons c cs ih => simp [dropPref, ih]

theorem matchTagHere_ne_lbrack (c : Char) (cs : List Char) (h : c ≠ '[') :
    matchTagHere (c :: cs) = none := by
  have hM : markerTagPre = '[' :: "DEBUG-HELPER:".data := by decide
  have hd : dropPref markerTagPre (c :: cs) = none := by
    rw [hM]
    simp only [dropPref]
    exact if_neg (fun hc => h hc.symm)
  simp only [matchTagHere, hd]

theorem scanTag_append_clean (pre l : List Char) (hpre : ∀ c ∈ pre, c ≠ '[') :
    scanTag (pre ++ l) = scanTag l := by
  induction pre with
  | nil => rfl
  | cons c cs ih =>
    show scanTag (c :: (cs ++ l)) = scanTag l
    simp only [scanTag, matchTagHere_ne_lbrack c _ (hpre c (by simp))]
    exact ih (fun d hd => hpre d (by simp [hd]))

theorem hasTagWord_append_clean (w pre l : List Char) (hpre : ∀ c ∈ pre, c ≠ '[') :
    hasTagWord w (pre ++ l) = hasTagWord w l := by
  induction pre with
  | nil => rfl
  | cons c cs ih =>
    show hasTagWord w (c :: (cs ++ l)) = hasTagWord w l
    simp only [hasTagWord, matchTagHere_ne_lbrack c _ (hpre c (by simp))]
    simpa using ih (fun d hd => hpre d (by simp [hd]))

theorem scanTag_clean_none (l : List Char) (h : ∀ c ∈ l, c ≠ '[') :
    scanTag l = none := by
  induction l with
  | nil => rfl
  | cons c cs ih =>
    simp only [scanTag, matchTagHere_ne_lbrack c _ (h c (by simp))]
    exact ih (fun d hd => h d (by simp [hd]))

theorem hasTagWord_clean_false (w l : List Char) (h : ∀ c ∈ l, c ≠ '[') :
    hasTagWord w l = false := by
  induction l with
  | nil => rfl
  | cons c cs ih =>
    simp only [hasTagWord, matchTagHere_ne_lbrack c _ (h c (by simp))]
    simpa using ih (fun d hd => h d (by simp [hd]))

theorem takeWhile_all_app {α : Type} (p : α → Bool) (a : List α) (b : α) (t : List α)
    (ha : ∀ c ∈ a, p c = true) (hb : p b = false) :
    (a ++ b :: t).takeWhile p = a := by
  induction a with
  | nil => simp [List.takeWhile_cons, hb]
  | cons c cs ih =>
    simp [List.takeWhile_cons, ha c (by simp),
      ih (fun d hd => ha d (by simp [hd]))]

theorem dropWhile_all_app {α : Type} (p : α → Bool) (a : List α) (b : α) (t : List α)
    (ha : ∀ c ∈ a, p c = true) (hb : p b = false) :
    (a ++ b :: t).dropWhile p = b :: t := by
  induction a with
  | nil => simp [List.dropWhile_cons, hb]
  | cons c cs ih =>
    simp [List.dropWhile_cons, ha c (by simp),
      ih (fun d hd => ha d (by simp [hd]))]

theorem matchTagHere_tag (id tail : List Char) (hid1 : id ≠ [])
    (hid2 : ∀ c ∈ id, idChar c = true) :
    matchTagHere (tagStr id ++ tail) = some (id, tail) := by
  have h1 : tagStr id ++ tail = markerTagPre ++ (id ++ ']' :: tail) := by
    simp [tagStr]
  rw [h1]
  simp only [matchTagHere, dropPref_self_append]
  rw [dropWhile_all_app idChar id ']' tail hid2 (by decide),
    takeWhile_all_app idChar id ']' tail hid2 (by decide)]
  simp [hid1]

theorem scanTag_cons_of_match (c : Char) (cs : List Char) (r : List Char × List Char)
    (h : matchTagHere (c :: cs) = some r) : scanTag (c :: cs) = some r := by
  simp only [scanTag, h]

theorem tagStr_cons (id tail : List Char) :
    tagStr id ++ tail = '[' :: ("DEBUG-HELPER:".data ++ (id ++ ']' :: tail)) := by
  have hM : markerTagPre = '[' :: "DEBUG-HELPER:".data := by decide
  simp [tagStr, hM]

theorem scanTag_at_tag (pre id tail : List Char) (hpre : ∀ c ∈ pre, c ≠ '[')
    (hid1 : id ≠ []) (hid2 : ∀ c ∈ id, idChar c = true) :
    scanTag (pre ++ tagStr id ++ tail) = some (id, tail) := by
  rw [List.append_assoc, scanTag_append_clean _ _ hpre]
  have hm := matchTagHere_tag id tail hid1 hid2
  rw [tagStr_cons] at hm ⊢
  exact scanTag_cons_of_match _ _ _ hm

theorem extract_pre_tag (pre id tail : List Char) (hpre : ∀ c ∈ pre, c ≠ '[')
    (hid1 : id ≠ []) (hid2 : ∀ c ∈ id, idChar c = true) :
    extractMarkerId (pre ++ tagStr id ++ tail) = some id := by
  rw [extractMarkerId, scanTag_at_tag pre id tail hpre hid1 hid2]
  rfl

theorem hasTagWord_cons (w : List Char) (c : Char) (cs : List Char) :
    hasTagWord w (c :: cs) =
      ((match matchTagHere (c :: cs) with
        | some r => isPref w r.2
        | none => false) || hasTagWord w cs) := rfl

theorem hasTagWord_pre_tag (w pre id tail : List Char) (hpre : ∀ c ∈ pre, c ≠ '[')
    (hid1 : id ≠ []) (hid2 : ∀ c ∈ id, idChar c = true)
    (htail : ∀ c ∈ tail, c ≠ '[') :
    hasTagWord w (pre ++ tagStr id ++ tail) = isPref w tail := by
  rw [List.append_assoc, hasTagWord_append_clean _ _ _ hpre]
  have hm := matchTagHere_tag id tail hid1 hid2
  rw [tagStr_cons] at hm ⊢
  rw [hasTagWord_cons, hm]
  have hclean : ∀ c ∈ "DEBUG-HELPER:".data ++ (id ++ ']' :: tail), c ≠ '[' := by
    intro c hc
    rcases List.mem_append.mp hc with hc | hc
    · exact (by decide : ∀ d ∈ "DEBUG-HELPER:".data, d ≠ '[') c hc
    · rcases List.mem_append.mp hc with hc | hc
      · exact (idChar_no c (hid2 c hc)).1
      · rcases List.mem_cons.mp hc with hc | hc
        · subst hc; decide
        · exact htail c hc
  rw [hasTagWord_clean_false w _ hclean]
  simp

theorem isStartMarker_append_clean (pre l : List Char) (hpre : ∀ c ∈ pre, c ≠ '[') :
    isStartMarker (pre ++ l) = isStartMarker l :=
  hasTagWord_append_clean _ pre l hpre

theorem isEndMarker_append_clean (pre l : List Char) (hpre : ∀ c ∈ pre, c ≠ '[') :
    isEndMarker (pre ++ l) = isEndMarker l :=
  hasTagWord_append_clean _ pre l hpre

theorem extractMarkerId_append_clean (pre l : List Char) (hpre : ∀ c ∈ pre, c ≠ '[') :
    extractMarkerId (pre ++ l) = extractMarkerId l := by
  rw [extractMarkerId, extractMarkerId, scanTag_append_clean pre l hpre]

theorem isStartMarker_tag_start (pre id : List Char) (hpre : ∀ c ∈ pre, c ≠ '[')
    (hid1 : id ≠ []) (hid2 : ∀ c ∈ id, idChar c = true) :
    isStartMarker (pre ++ tagStr id ++ " START".data) = true := by
  rw [isStartMarker, hasTagWord_pre_tag _ pre id _ hpre hid1 hid2 (by decide)]
  decide

theorem isStartMarker_tag_end (pre id : List Char) (hpre : ∀ c ∈ pre, c ≠ '[')
    (hid1 : id ≠ []) (hid2 : ∀ c ∈ id, idChar c = true) :
    isStartMarker (pre ++ tagStr id ++ " END".data) = false := by
  rw [isStartMarker, hasTagWord_pre_tag _ pre id _ hpre hid1 hid2 (by decide)]
  decide

theorem isEndMarker_tag_end (pre id : List Char) (hpre : ∀ c ∈ pre, c ≠ '[')
    (hid1 : id ≠ []) (hid2 : ∀ c ∈ id, idChar c = true) :
    isEndMarker (pre ++ tagStr id ++ " END".data) = true := by
  rw [isEndMarker, hasTagWord_pre_tag _ pre id _ hpre hid1 hid2 (by decide)]
  decide

theorem extract_tag_word (pre id w : List Char) (hpre : ∀ c ∈ pre, c ≠ '[')
    (hid1 : id ≠ []) (hid2 : ∀ c ∈ id, idChar c = true) :
    extractMarkerId (pre ++ tagStr id ++ w) = some id :=
  extract_pre_tag pre id w hpre hid1 hid2

/-- Shape of the start/end marker renderers of the four source patterns: a
comment token followed by a space (none of which is `[` or a newline, and
whose first character is not whitespace), then the language-independent tag,
then `" START"`/`" END"`. -/
theorem pattern_marker_shape (p : InstrumentationPattern) (hp : p ∈ allPatterns) :
    ∃ c0 crest, jsSpace c0 = false ∧ (∀ c ∈ c0 :: crest, c ≠ '[' ∧ c ≠ '\n') ∧
      (∀ id, p.start_marker id = (c0 :: crest) ++ tagStr id ++ " START".data) ∧
      (∀ id, p.end_marker id = (c0 :: crest) ++ tagStr id ++ " END".data) := by
  have hslash : ∀ id : List Char,
      "// [DEBUG-HELPER:".data ++ id ++ "] START".data =
        ('/' :: "/ ".data) ++ tagStr id ++ " START".data := by
    intro id
    have h1 : "// [DEBUG-HELPER:".data = ('/' :: "/ ".data) ++ markerTagPre := by decide
    have h2 : "] START".data = (']' :: []) ++ " START".data := by decide
    rw [h1, h2]
    simp [tagStr, List.append_assoc]
  have hslashE : ∀ id : List Char,
      "// [DEBUG-HELPER:".data ++ id ++ "] END".data =
        ('/' :: "/ ".data) ++ tagStr id ++ " END".data := by
    intro id
    have h1 : "// [DEBUG-HELPER:".data = ('/' :: "/ ".data) ++ markerTagPre := by decide
    have h2 : "] END".data = (']' :: []) ++ " END".data := by decide
    rw [h1, h2]
    simp [tagStr, List.append_assoc]
  have hhash : ∀ id : List Char,
      "# [DEBUG-HELPER:".data ++ id ++ "] START".data =
        ('#' :: " ".data) ++ tagStr id ++ " START".data := by
    intro id
    have h1 : "# [DEBUG-HELPER:".data = ('#' :: " ".data) ++ markerTagPre := by decide
    have h2 : "] START".data = (']' :: []) ++ " START".data := by decide
    rw [h1, h2]
    simp [tagStr, List.append_assoc]
  have hhashE : ∀ id : List Char,
      "# [DEBUG-HELPER:".data ++ id ++ "] END".data =
        ('#' :: " ".data) ++ tagStr id ++ " END".data := by
    intro id
    have h1 : "# [DEBUG-HELPER:".data = ('#' :: " ".data) ++ markerTagPre := by decide
    have h2 : "] END".data = (']' :: []) ++ " END".data := by decide
    rw [h1, h2]
    simp [tagStr, List.append_assoc]
  have hp2 : p = JS_TS_PATTERN ∨ p = PYTHON_PATTERN ∨ p = RUST_PATTERN ∨ p = GO_PATTERN := by
    simpa [allPatterns] using hp
  rcases hp2 with rfl | rfl | rfl | rfl
  · exact ⟨'/', "/ ".data, by decide, by decide, hslash, hslashE⟩
  · exact ⟨'#', " ".data, by decide, by decide, hhash, hhashE⟩
  · exact ⟨'/', "/ ".data, by decide, by decide, hslash, hslashE⟩
  · exact ⟨'/', "/ ".data, by decide, by decide, hslash, hslashE⟩

theorem removeAux_cons (id l : List Char) (ls : List (List Char)) (inT : Bool) :
    removeAux id inT (l :: ls) =
      if isStartMarker l = true ∧ extractMarkerId l = some id then
        removeAux id true ls
      else if isEndMarker l = true ∧ extractMarkerId l = some id then
        removeAux id false ls
      else if inT = true then
        removeAux id inT ls
      else
        l :: removeAux id inT ls := rfl

theorem removeAux_keep (id : List Char) (xs ys : List (List Char))
    (h : ∀ l ∈ xs, ¬(isStartMarker l = true ∧ extractMarkerId l = some id) ∧
      ¬(isEndMarker l = true ∧ extractMarkerId l = some id)) :
    removeAux id false (xs ++ ys) = xs ++ removeAux id false ys := by
  induction xs with
  | nil => rfl
  | cons l xs2 ih =>
    have hl := h l (by simp)
    show removeAux id false (l :: (xs2 ++ ys)) = l :: (xs2 ++ removeAux id false ys)
    rw [removeAux_cons, if_neg hl.1, if_neg hl.2, if_neg (by simp),
      ih (fun d hd => h d (by simp [hd]))]

theorem removeAux_inside (id : List Char) (mids rest : List (List Char))
    (h : ∀ l ∈ mids, ¬(isEndMarker l = true ∧ extractMarkerId l = some id)) :
    removeAux id true (mids ++ rest) = removeAux id true rest := by
  induction mids with
  | nil => rfl
  | cons l ms ih =>
    have hl := h l (by simp)
    have ih2 := ih (fun d hd => h d (by simp [hd]))
    show removeAux id true (l :: (ms ++ rest)) = removeAux id true rest
    by_cases h1 : isStartMarker l = true ∧ extractMarkerId l = some id
    · rw [removeAux_cons, if_pos h1, ih2]
    · rw [removeAux_cons, if_neg h1, if_neg hl, if_pos rfl, ih2]

theorem removeAux_drop_all (id : List Char) (ls : List (List Char))
    (h : ∀ l ∈ ls, ¬(isEndMarker l = true ∧ extractMarkerId l = some id)) :
    removeAux id true ls = [] := by
  have := removeAux_inside id ls [] h
  simpa using this

theorem removeAux_block (id sL eL : List Char) (mids ys : List (List Char))
    (hs1 : isStartMarker sL = true) (hs2 : extractMarkerId sL = some id)
    (hm : ∀ l ∈ mids, ¬(isEndMarker l = true ∧ extractMarkerId l = some id))
    (he1 : isStartMarker eL = false) (he2 : isEndMarker eL = true)
    (he3 : extractMarkerId eL = some id) :
    removeAux id false (sL :: (mids ++ eL :: ys)) = removeAux id false ys := by
  rw [removeAux_cons, if_pos ⟨hs1, hs2⟩, removeAux_inside id mids (eL :: ys) hm,
    removeAux_cons, if_neg (by simp [he1]), if_pos ⟨he2, he3⟩]

theorem findAux_cons (l : List Char) (ls : List (List Char)) (i : Nat)
    (cur : Option OpenBlock) :
    findAux (l :: ls) i cur =
      if isStartMarker l = true then
        match extractMarkerId l with
        | some id => findAux ls (i + 1) (some ⟨id, i, [l]⟩)
        | none => findAux ls (i + 1) cur
      else if isEndMarker l = true then
        match cur with
        | some c =>
          if extractMarkerId l = some c.markerId then
            ⟨c.markerId, c.startLine, i, joinNl (c.lines ++ [l])⟩ :: findAux ls (i + 1) none
          else
            findAux ls (i + 1) (some c)
        | none => findAux ls (i + 1) none
      else
        match cur with
        | some c => findAux ls (i + 1) (some ⟨c.markerId, c.startLine, c.lines ++ [l]⟩)
        | none => findAux ls (i + 1) none := rfl

theorem findAux_run (X eL : List Char) (post : List (List Char))
    (he1 : isStartMarker eL = false) (he2 : isEndMarker eL = true)
    (he3 : extractMarkerId eL = some X) :
    ∀ (mids : List (List Char)),
      (∀ l ∈ mids, isStartMarker l = false ∧
        ¬(isEndMarker l = true ∧ extractMarkerId l = some X)) →
      ∀ (j i0 : Nat) (acc : List (List Char)),
        ∃ c : List Char, findAux (mids ++ eL :: post) j (some ⟨X, i0, acc⟩) =
          ⟨X, i0, j + mids.length, c⟩ :: findAux post (j + mids.length + 1) none := by
  intro mids
  induction mids with
  | nil =>
    intro _ j i0 acc
    refine ⟨joinNl (acc ++ [eL]), ?_⟩
    show findAux (eL :: post) j (some ⟨X, i0, acc⟩) = _
    simp [findAux_cons, he1, he2, he3]
  | cons m ms ih =>
    intro hm j i0 acc
    have hm1 := hm m (by simp)
    have hmrest : ∀ l ∈ ms, isStartMarker l = false ∧
        ¬(isEndMarker l = true ∧ extractMarkerId l = some X) :=
      fun d hd => hm d (by simp [hd])
    by_cases hEnd : isEndMarker m = true
    · have hne : ¬(extractMarkerId m = some X) := fun hx => hm1.2 ⟨hEnd, hx⟩
      obtain ⟨c, hc⟩ := ih hmrest (j + 1) i0 acc
      refine ⟨c, ?_⟩
      show findAux (m :: (ms ++ eL :: post)) j (some ⟨X, i0, acc⟩) = _
      have harith : j + 1 + ms.length = j + (ms.length + 1) := by omega
      rw [harith] at hc
      simp only [findAux_cons, hm1.1, Bool.false_eq_true, if_false, hEnd, if_true, hne,
        List.length_cons]
      exact hc
    · obtain ⟨c, hc⟩ := ih hmrest (j + 1) i0 (acc ++ [m])
      refine ⟨c, ?_⟩
      show findAux (m :: (ms ++ eL :: post)) j (some ⟨X, i0, acc⟩) = _
      have harith : j + 1 + ms.length = j + (ms.length + 1) := by omega
      rw [harith] at hc
      simp only [findAux_cons, hm1.1, Bool.false_eq_true, if_false, hEnd,
        List.length_cons]
      exact hc

theorem findAux_recognizes (X sL eL : List Char) (mids post : List (List Char))
    (hs1 : isStartMarker sL = true) (hs2 : extractMarkerId sL = some X)
    (hm : ∀ l ∈ mids, isStartMarker l = false ∧
      ¬(isEndMarker l = true ∧ extractMarkerId l = some X))
    (he1 : isStartMarker eL = false) (he2 : isEndMarker eL = true)
    (he3 : extractMarkerId eL = some X) :
    ∀ (pre : List (List Char)) (i : Nat) (cur : Option OpenBlock),
      ∃ b ∈ findAux (pre ++ sL :: (mids ++ eL :: post)) i cur,
        b.markerId = X ∧ b.startLine = i + pre.length ∧
        b.endLine = i + pre.length + mids.length + 1 := by
  intro pre
  induction pre with
  | nil =>
    intro i cur
    obtain ⟨c, hc⟩ := findAux_run X eL post he1 he2 he3 mids hm (i + 1) i [sL]
    have hstep : findAux ([] ++ sL :: (mids ++ eL :: post)) i cur =
        findAux (mids ++ eL :: post) (i + 1) (some ⟨X, i, [sL]⟩) := by
      simp [findAux_cons, hs1, hs2]
    rw [hstep, hc]
    exact ⟨_, List.mem_cons_self _ _, rfl, by simp, by simp; omega⟩
  | cons q pre2 ih =>
    intro i cur
    have hlift : ∀ cur2 : Option OpenBlock,
        (∃ b ∈ findAux (pre2 ++ sL :: (mids ++ eL :: post)) (i + 1) cur2,
          b.markerId = X ∧ b.startLine = i + 1 + pre2.length ∧
          b.endLine = i + 1 + pre2.length + mids.length + 1) →
        ∀ res : List FoundBlock,
          (∀ b, b ∈ findAux (pre2 ++ sL :: (mids ++ eL :: post)) (i + 1) cur2 → b ∈ res) →
          ∃ b ∈ res, b.markerId = X ∧ b.startLine = i + (q :: pre2).length ∧
            b.endLine = i + (q :: pre2).length + mids.length + 1 := by
      intro cur2 hex res hsub
      obtain ⟨b, hb, p1, p2, p3⟩ := hex
      exact ⟨b, hsub b hb, p1, by rw [p2]; simp; omega, by rw [p3]; simp; omega⟩
    show ∃ b ∈ findAux (q :: (pre2 ++ sL :: (mids ++ eL :: post))) i cur, _
    by_cases hq1 : isStartMarker q = true
    · cases hqe : extractMarkerId q with
      | some idq =>
        refine hlift (some ⟨idq, i, [q]⟩) (ih (i + 1) (some ⟨idq, i, [q]⟩)) _ ?_
        intro b hb
        simpa [findAux_cons, hq1, hqe] using hb
      | none =>
        refine hlift cur (ih (i + 1) cur) _ ?_
        intro b hb
        simpa [findAux_cons, hq1, hqe] using hb
    · by_cases hq2 : isEndMarker q = true
      · cases cur with
        | some c =>
          by_cases hqc : extractMarkerId q = some c.markerId
          · refine hlift none (ih (i + 1) none) _ ?_
            intro b hb
            simp [findAux_cons, hq1, hq2, hqc]
            exact Or.inr hb
          · refine hlift (some c) (ih (i + 1) (some c)) _ ?_
            intro b hb
            simpa [findAux_cons, hq1, hq2, hqc] using hb
        | none =>
          refine hlift none (ih (i + 1) none) _ ?_
          intro b hb
          simpa [findAux_cons, hq1, hq2] using hb
      · cases cur with
        | some c =>
          refine hlift (some ⟨c.markerId, c.startLine, c.lines ++ [q]⟩)
            (ih (i + 1) (some ⟨c.markerId, c.startLine, c.lines ++ [q]⟩)) _ ?_
          intro b hb
          simpa [findAux_cons, hq1, hq2] using hb
        | none =>
          refine hlift none (ih (i + 1) none) _ ?_
          intro b hb
          simpa [findAux_cons, hq1, hq2] using hb

theorem getD_mem {α : Type} (l : List α) (i : Nat) (d : α) (h : i < l.length) :
    l.getD i d ∈ l := by
  induction l generalizing i with
  | nil => simp at h
  | cons a as ih =>
    cases i with
    | zero => simp [List.getD]
    | succ j =>
      have : as.getD j d ∈ as := ih j (by simpa using h)
      simp [List.getD] at this ⊢
      exact Or.inr this

theorem mem_takeWhile {α : Type} (p : α → Bool) (l : List α) :
    ∀ a ∈ l.takeWhile p, p a = true ∧ a ∈ l := by
  induction l with
  | nil => simp
  | cons b bs ih =>
    intro a ha
    rw [List.takeWhile_cons] at ha
    by_cases hb : p b = true
    · rw [if_pos hb] at ha
      rcases List.mem_cons.mp ha with ha | ha
      · exact ⟨ha ▸ hb, by simp [ha]⟩
      · exact ⟨(ih a ha).1, by simp [(ih a ha).2]⟩
    · rw [if_neg hb] at ha
      simp at ha

theorem tagStr_flat (id : List Char) (hid : ∀ c ∈ id, idChar c = true) :
    ∀ c ∈ tagStr id, c ≠ '\n' := by
  intro c hc
  rw [tagStr] at hc
  rcases List.mem_append.mp hc with hc | hc
  · rcases List.mem_append.mp hc with hc | hc
    · exact (by decide : ∀ d ∈ markerTagPre, d ≠ '\n') c hc
    · exact (idChar_no c (hid c hc)).2.1
  · rcases List.mem_cons.mp hc with hc | hc
    · subst hc; decide
    · simp at hc

/--
Line-level facts about the rendered start/end lines of a block of any
pattern from `allPatterns`, bundled for reuse.
-/
theorem block_line_facts (p : InstrumentationPattern) (hp : p ∈ allPatterns)
    (ind markerId : List Char) (hind : ∀ c ∈ ind, jsSpace c = true)
    (hindnl : ∀ c ∈ ind, c ≠ '\n')
    (hid1 : markerId ≠ []) (hid2 : ∀ c ∈ markerId, idChar c = true) :
    isStartMarker (ind ++ p.start_marker markerId) = true ∧
    extractMarkerId (ind ++ p.start_marker markerId) = some markerId ∧
    isStartMarker (ind ++ p.end_marker markerId) = false ∧
    isEndMarker (ind ++ p.end_marker markerId) = true ∧
    extractMarkerId (ind ++ p.end_marker markerId) = some markerId ∧
    (∀ c ∈ ind ++ p.start_marker markerId, c ≠ '\n') ∧
    (∀ c ∈ ind ++ p.end_marker markerId, c ≠ '\n') := by
  obtain ⟨c0, crest, _, hcmt, hsm, hem⟩ := pattern_marker_shape p hp
  have hindcl : ∀ c ∈ ind, c ≠ '[' := fun c hc => jsSpace_no_lbrack c (hind c hc)
  have hpre : ∀ c ∈ ind ++ (c0 :: crest), c ≠ '[' := by
    intro c hc
    rcases List.mem_append.mp hc with hc | hc
    · exact hindcl c hc
    · exact (hcmt c hc).1
  have hsL : ind ++ p.start_marker markerId =
      (ind ++ (c0 :: crest)) ++ tagStr markerId ++ " START".data := by
    rw [hsm]; simp [List.append_assoc]
  have heL : ind ++ p.end_marker markerId =
      (ind ++ (c0 :: crest)) ++ tagStr markerId ++ " END".data := by
    rw [hem]; simp [List.append_assoc]
  have hflatS : ∀ c ∈ ind ++ p.start_marker markerId, c ≠ '\n' := by
    rw [hsL]
    intro c hc
    rcases List.mem_append.mp hc with hc | hc
    · rcases List.mem_append.mp hc with hc | hc
      · rcases List.mem_append.mp hc with hc | hc
        · exact hindnl c hc
        · exact (hcmt c hc).2
      · exact tagStr_flat markerId hid2 c hc
    · exact (by decide : ∀ d ∈ " START".data, d ≠ '\n') c hc
  have hflatE : ∀ c ∈ ind ++ p.end_marker markerId, c ≠ '\n' := by
    rw [heL]
    intro c hc
    rcases List.mem_append.mp hc with hc | hc
    · rcases List.mem_append.mp hc with hc | hc
      · rcases List.mem_append.mp hc with hc | hc
        · exact hindnl c hc
        · exact (hcmt c hc).2
      · exact tagStr_flat markerId hid2 c hc
    · exact (by decide : ∀ d ∈ " END".data, d ≠ '\n') c hc
  refine ⟨?_, ?_, ?_, ?_, ?_, hflatS, hflatE⟩
  · rw [hsL]; exact isStartMarker_tag_start _ _ hpre hid1 hid2
  · rw [hsL]; exact extract_tag_word _ _ _ hpre hid1 hid2
  · rw [heL]; exact isStartMarker_tag_end _ _ hpre hid1 hid2
  · rw [heL]; exact isEndMarker_tag_end _ _ hpre hid1 hid2
  · rw [heL]; exact extract_tag_word _ _ _ hpre hid1 hid2

/--
Decomposition of the spliced content into lines: the original lines up to
`n`, then the three (or more, if the log statement contains newlines) lines
of the block, then the rest of the original lines.
-/
theorem splitNl_spliceBlock (p : InstrumentationPattern) (hp : p ∈ allPatterns)
    (content markerId label : List Char) (expression : Option (List Char)) (n : Nat)
    (hn1 : 1 ≤ n) (hn2 : n ≤ (splitNl content).length)
    (hid1 : markerId ≠ []) (hid2 : ∀ c ∈ markerId, idChar c = true) :
    splitNl (spliceBlock p markerId label expression n content) =
      (splitNl content).take n ++
        (indentOf content n ++ p.start_marker markerId) ::
          (splitNl (indentOf content n ++ renderLogLine p markerId label expression) ++
            (indentOf content n ++ p.end_marker markerId) :: (splitNl content).drop n) := by
  have hflat0 := mem_splitNl_flat content
  have htmem : (splitNl content).getD (n - 1) [] ∈ splitNl content :=
    getD_mem _ _ _ (by omega)
  have hind : ∀ c ∈ indentOf content n, jsSpace c = true :=
    fun c hc => (mem_takeWhile jsSpace _ c hc).1
  have hindnl : ∀ c ∈ indentOf content n, c ≠ '\n' :=
    fun c hc => hflat0 _ htmem c (mem_takeWhile jsSpace _ c hc).2
  obtain ⟨_, _, _, _, _, hflatS, hflatE⟩ :=
    block_line_facts p hp (indentOf content n) markerId hind hindnl hid1 hid2
  have hAne : (splitNl content).take n ≠ [] := by
    have hlen : ((splitNl content).take n).length = n := by
      rw [List.length_take]
      omega
    intro h
    rw [h] at hlen
    simp at hlen
    omega
  have hblock : buildInstrumentationBlock p markerId label expression (indentOf content n) =
      (indentOf content n ++ p.start_marker markerId) ++
        '\n' :: ((indentOf content n ++ renderLogLine p markerId label expression) ++
          '\n' :: (indentOf content n ++ p.end_marker markerId)) := rfl
  have hsplitb : splitNl (buildInstrumentationBlock p markerId label expression
      (indentOf content n)) =
      (indentOf content n ++ p.start_marker markerId) ::
        (splitNl (indentOf content n ++ renderLogLine p markerId label expression) ++
          [indentOf content n ++ p.end_marker markerId]) := by
    rw [hblock, splitNl_append_nl, splitNl_append_nl,
      splitNl_eq_single _ hflatS, splitNl_eq_single _ hflatE]
    rfl
  rw [spliceBlock,
    show (splitNl content).take n ++
        [buildInstrumentationBlock p markerId label expression (indentOf content n)] ++
        (splitNl content).drop n =
      (splitNl content).take n ++
        buildInstrumentationBlock p markerId label expression (indentOf content n) ::
        (splitNl content).drop n from by simp,
    splitNl_joinNl_mixed _ _ _ hAne
      (fun s hs => hflat0 s (List.take_subset n _ hs))
      (fun s hs => hflat0 s (List.drop_subset n _ hs)),
    hsplitb]
  simp

/--
C1: for every supported language pattern and every file content, performing
`add` (splicing the rendered instrumentation block immediately after a valid
line `n`) followed immediately by `remove` of the same marker id restores the
file's text to byte-for-byte equality with its pre-`add` content.  The marker
id is required to be a fresh well-formed `[a-z0-9]+` token (no original line
carries it as its first marker tag, as holds for a freshly minted random id),
and the substituted log statement must not itself contain an end marker for
that id.
-/
theorem add_remove_roundtrip (p : InstrumentationPattern) (hp : p ∈ allPatterns)
    (content markerId label : List Char) (expression : Option (List Char)) (n : Nat)
    (hn1 : 1 ≤ n) (hn2 : n ≤ (splitNl content).length)
    (hid1 : markerId ≠ []) (hid2 : markerId.all idChar = true)
    (hfresh : ∀ l ∈ splitNl content, extractMarkerId l ≠ some markerId)
    (hmid : ∀ l ∈ splitNl (indentOf content n ++ renderLogLine p markerId label expression),
      ¬(isEndMarker l = true ∧ extractMarkerId l = some markerId)) :
    removeInstrumentationBlock (spliceBlock p markerId label expression n content) markerId
      = content := by
  have hid2' : ∀ c ∈ markerId, idChar c = true := by
    intro c hc
    exact List.all_eq_true.mp hid2 c hc
  have hflat0 := mem_splitNl_flat content
  have htmem : (splitNl content).getD (n - 1) [] ∈ splitNl content :=
    getD_mem _ _ _ (by omega)
  have hind : ∀ c ∈ indentOf content n, jsSpace c = true :=
    fun c hc => (mem_takeWhile jsSpace _ c hc).1
  have hindnl : ∀ c ∈ indentOf content n, c ≠ '\n' :=
    fun c hc => hflat0 _ htmem c (mem_takeWhile jsSpace _ c hc).2
  obtain ⟨hsL1, hsL2, heL1, heL2, heL3, _, _⟩ :=
    block_line_facts p hp (indentOf content n) markerId hind hindnl hid1 hid2'
  have hsplit := splitNl_spliceBlock p hp content markerId label expression n hn1 hn2 hid1 hid2'
  have hkeep : ∀ l ∈ (splitNl content).take n,
      ¬(isStartMarker l = true ∧ extractMarkerId l = some markerId) ∧
      ¬(isEndMarker l = true ∧ extractMarkerId l = some markerId) := by
    intro l hl
    have := hfresh l (List.take_subset n _ hl)
    exact ⟨fun hx => this hx.2, fun hx => this hx.2⟩
  have hkeepB : ∀ l ∈ (splitNl content).drop n,
      ¬(isStartMarker l = true ∧ extractMarkerId l = some markerId) ∧
      ¬(isEndMarker l = true ∧ extractMarkerId l = some markerId) := by
    intro l hl
    have := hfresh l (List.drop_subset n _ hl)
    exact ⟨fun hx => this hx.2, fun hx => this hx.2⟩
  rw [removeInstrumentationBlock, hsplit, removeAux_keep _ _ _ hkeep,
    removeAux_block _ _ _ _ _ hsL1 hsL2 hmid heL1 heL2 heL3]
  have hB : removeAux markerId false ((splitNl content).drop n) =
      (splitNl content).drop n := by
    have h0 : removeAux markerId false ([] : List (List Char)) = [] := rfl
    have := removeAux_keep markerId ((splitNl content).drop n) [] hkeepB
    simpa [h0] using this
  rw [hB, List.take_append_drop, joinNl_splitNl]

/--
Witness for the round-trip theorem at a concrete input: JS pattern, a
two-line file, insertion after line 1.
-/
theorem add_remove_roundtrip_witness :
    removeInstrumentationBlock
      (spliceBlock JS_TS_PATTERN "m1".data "t".data (some "x".data) 1 "a\nb".data)
      "m1".data = "a\nb".data :=
  add_remove_roundtrip JS_TS_PATTERN (List.mem_cons_self _ _) "a\nb".data "m1".data
    "t".data (some "x".data) 1 (by decide) (by decide) (by decide) (by decide)
    (by decide) (by decide)

/--
C10: on content whose lines contain exactly one start-marker line carrying id
`X` (at the position exhibited by `hsplit`) and no end-marker line carrying
`X`, `removeInstrumentationBlock` keeps every line before the start marker
and deletes the start-marker line together with every line after it, to the
end of the input.
-/
theorem remove_unterminated_block (content X sL : List Char)
    (pre post : List (List Char))
    (hsplit : splitNl content = pre ++ sL :: post)
    (hs1 : isStartMarker sL = true) (hs2 : extractMarkerId sL = some X)
    (hpre : ∀ l ∈ pre, ¬(isStartMarker l = true ∧ extractMarkerId l = some X))
    (_hpost : ∀ l ∈ post, ¬(isStartMarker l = true ∧ extractMarkerId l = some X))
    (hnoend : ∀ l ∈ splitNl content, ¬(isEndMarker l = true ∧ extractMarkerId l = some X)) :
    removeInstrumentationBlock content X = joinNl pre := by
  have hkeep : ∀ l ∈ pre,
      ¬(isStartMarker l = true ∧ extractMarkerId l = some X) ∧
      ¬(isEndMarker l = true ∧ extractMarkerId l = some X) := by
    intro l hl
    exact ⟨hpre l hl, hnoend l (by rw [hsplit]; exact List.mem_append_left _ hl)⟩
  have hdrop : ∀ l ∈ post, ¬(isEndMarker l = true ∧ extractMarkerId l = some X) := by
    intro l hl
    exact hnoend l (by rw [hsplit]; exact List.mem_append_right _ (by simp [hl]))
  rw [removeInstrumentationBlock, hsplit, removeAux_keep _ _ _ hkeep,
    removeAux_cons, if_pos ⟨hs1, hs2⟩, removeAux_drop_all X post hdrop,
    List.append_nil]

/--
Witness for the unterminated-block theorem: a three-line file whose middle
line opens a block for `zz` that is never closed.
-/
theorem remove_unterminated_block_witness :
    removeInstrumentationBlock "keep\n// [DEBUG-HELPER:zz] START\ntail".data "zz".data
      = "keep".data :=
  remove_unterminated_block "keep\n// [DEBUG-HELPER:zz] START\ntail".data "zz".data
    "// [DEBUG-HELPER:zz] START".data ["keep".data] ["tail".data]
    (by decide) (by decide) (by decide) (by decide) (by decide) (by decide)

/--
C4 counterexample: with `start(xx)`, content, `start(yy)`, `end(xx)` the
scanner recognizes no block at all — the interleaved `start(yy)` is not
treated as ordinary content, so the claimed block for `xx` is not recognized.
-/
theorem scan_interleaved_start_counterexample :
    findInstrumentationBlocks
      "// [DEBUG-HELPER:xx] START\nmid\n// [DEBUG-HELPER:yy] START\n// [DEBUG-HELPER:xx] END".data
      = [] := by decide

/--
C4 (amended): once inside an open block for id `X`, a start-marker line
carrying a different id `Y` does not act as ordinary content: it resets the
scanner to a fresh open block for `Y` (first conjunct).  A block for `X` is
recognized whenever its `end(X)` line follows its `start(X)` line with no
start-marker line (of any id) and no `end(X)` line strictly in between
(second conjunct).
-/
theorem scan_reset_and_recognize :
    (∀ (l : List Char) (rest : List (List Char)) (i : Nat) (c : OpenBlock) (Y : List Char),
      isStartMarker l = true → extractMarkerId l = some Y →
      findAux (l :: rest) i (some c) = findAux rest (i + 1) (some ⟨Y, i, [l]⟩)) ∧
    (∀ (X sL eL : List Char) (pre mids post : List (List Char)),
      isStartMarker sL = true → extractMarkerId sL = some X →
      (∀ l ∈ mids, isStartMarker l = false ∧
        ¬(isEndMarker l = true ∧ extractMarkerId l = some X)) →
      isStartMarker eL = false → isEndMarker eL = true → extractMarkerId eL = some X →
      (∀ l ∈ pre, ∀ c ∈ l, c ≠ '\n') → (∀ c ∈ sL, c ≠ '\n') →
      (∀ l ∈ mids, ∀ c ∈ l, c ≠ '\n') → (∀ c ∈ eL, c ≠ '\n') →
      (∀ l ∈ post, ∀ c ∈ l, c ≠ '\n') →
      ∃ b ∈ findInstrumentationBlocks (joinNl (pre ++ sL :: (mids ++ eL :: post))),
        b.markerId = X ∧ b.startLine = 1 + pre.length ∧
        b.endLine = 1 + pre.length + mids.length + 1) := by
  constructor
  · intro l rest i c Y h1 h2
    simp [findAux_cons, h1, h2]
  · intro X sL eL pre mids post hs1 hs2 hm he1 he2 he3 hfpre hfs hfm hfe hfpost
    have hflat : ∀ s ∈ pre ++ sL :: (mids ++ eL :: post), ∀ c ∈ s, c ≠ '\n' := by
      intro s hs
      rcases List.mem_append.mp hs with hs | hs
      · exact hfpre s hs
      · rcases List.mem_cons.mp hs with hs | hs
        · exact hs ▸ hfs
        · rcases List.mem_append.mp hs with hs | hs
          · exact hfm s hs
          · rcases List.mem_cons.mp hs with hs | hs
            · exact hs ▸ hfe
            · exact hfpost s hs
    rw [findInstrumentationBlocks,
      splitNl_joinNl_flat _ (by simp) hflat]
    exact findAux_recognizes X sL eL mids post hs1 hs2 hm he1 he2 he3 pre 1 none

/--
Witness for the amended scanner theorem: both conjuncts instantiated at
concrete lines.
-/
theorem scan_reset_and_recognize_witness :
    (findAux ("// [DEBUG-HELPER:yy] START".data :: ["tail".data]) 7
        (some ⟨"zz".data, 2, []⟩)
      = findAux ["tail".data] 8
        (some ⟨"yy".data, 7, ["// [DEBUG-HELPER:yy] START".data]⟩)) ∧
    (∃ b ∈ findInstrumentationBlocks
        (joinNl (["before".data] ++ "// [DEBUG-HELPER:qq] START".data ::
          (["mid".data] ++ "// [DEBUG-HELPER:qq] END".data :: ["after".data]))),
      b.markerId = "qq".data ∧ b.startLine = 1 + (["before".data] : List (List Char)).length ∧
      b.endLine = 1 + (["before".data] : List (List Char)).length +
        (["mid".data] : List (List Char)).length + 1) := by
  constructor
  · exact scan_reset_and_recognize.1 "// [DEBUG-HELPER:yy] START".data ["tail".data] 7
      ⟨"zz".data, 2, []⟩ "yy".data (by decide) (by decide)
  · exact scan_reset_and_recognize.2 "qq".data "// [DEBUG-HELPER:qq] START".data
      "// [DEBUG-HELPER:qq] END".data ["before".data] ["mid".data] ["after".data]
      (by decide) (by decide) (by decide) (by decide) (by decide) (by decide)
      (by decide) (by decide) (by decide) (by decide) (by decide)

theorem find_filter_id_none (l : List InstrumentationMarker) (id : List Char) :
    (l.filter fun m => !(m.id == id)).find? (fun m => m.id == id) = none := by
  induction l with
  | nil => rfl
  | cons m ms ih =>
    by_cases hm : m.id == id
    · simp [List.filter_cons, hm, ih]
    · have hm2 : (m.id == id) = false := by simpa using hm
      simp [List.filter_cons, hm2, List.find?_cons, ih]

/--
C2 counterexample: on a session holding one marker whose block is present in
the file, the first `remove` succeeds, and the *second* `remove` of the same
id returns the `Error: Marker not found in session` outcome — not the
"already gone" warning the claim promises.
-/
theorem remove_twice_counterexample :
    (removeTool
        ⟨[⟨"aa".data, "/f.js".data, 2, 4, "t".data, none, "ts".data⟩],
         [("/f.js".data,
           "x\n// [DEBUG-HELPER:aa] START\ny\n// [DEBUG-HELPER:aa] END".data)]⟩
        "aa".data).2 = RemoveOutcome.removed ∧
    (removeTool
        (removeTool
          ⟨[⟨"aa".data, "/f.js".data, 2, 4, "t".data, none, "ts".data⟩],
           [("/f.js".data,
             "x\n// [DEBUG-HELPER:aa] START\ny\n// [DEBUG-HELPER:aa] END".data)]⟩
          "aa".data).1
        "aa".data).2 = RemoveOutcome.markerNotInSession := by
  constructor
  · rfl
  · rfl

/--
C2 (amended): calling `remove` a second time after a successful `remove`
always yields the `Error: Marker not found in session` outcome, because the
first call deleted the marker record (first conjunct).  The "already gone"
success outcome arises only when the marker record is still in the session
but removing its block leaves the file content unchanged (second conjunct).
-/
theorem remove_twice_amended :
    (∀ (st : SessionFsState) (markerId : List Char),
      (removeTool st markerId).2 = RemoveOutcome.removed →
      (removeTool (removeTool st markerId).1 markerId).2 =
        RemoveOutcome.markerNotInSession) ∧
    (∀ (st : SessionFsState) (markerId : List Char) (m : InstrumentationMarker)
        (content : List Char),
      st.markers.find? (fun mm => mm.id == markerId) = some m →
      lookupFile st.files m.file_path = some content →
      removeInstrumentationBlock content markerId = content →
      (removeTool st markerId).2 = RemoveOutcome.alreadyGone) := by
  constructor
  · intro st markerId h
    cases hf : st.markers.find? (fun mm => mm.id == markerId) with
    | none =>
      rw [show removeTool st markerId = (st, RemoveOutcome.markerNotInSession) from by
        simp [removeTool, hf]] at h
      simp at h
    | some m =>
      cases hl : lookupFile st.files m.file_path with
      | none =>
        rw [show removeTool st markerId =
            (⟨st.markers.filter fun mm => !(mm.id == markerId), st.files⟩,
             RemoveOutcome.fileMissing) from by simp [removeTool, hf, hl]] at h
        simp at h
      | some content =>
        by_cases hrm : removeInstrumentationBlock content markerId = content
        · rw [show removeTool st markerId =
              (⟨st.markers.filter fun mm => !(mm.id == markerId), st.files⟩,
               RemoveOutcome.alreadyGone) from by simp [removeTool, hf, hl, hrm]] at h
          simp at h
        · have hstep : removeTool st markerId =
              (⟨st.markers.filter fun mm => !(mm.id == markerId),
                updateFile st.files m.file_path
                  (removeInstrumentationBlock content markerId)⟩,
               RemoveOutcome.removed) := by
            simp [removeTool, hf, hl, hrm]
          rw [hstep]
          simp only [removeTool, find_filter_id_none]
  · intro st markerId m content hf hl hrm
    simp [removeTool, hf, hl, hrm]

/--
Witness for the amended removal theorem: both conjuncts at concrete states.
-/
theorem remove_twice_amended_witness :
    (removeTool
        (removeTool
          ⟨[⟨"bb".data, "/g.js".data, 2, 4, "t".data, none, "ts".data⟩],
           [("/g.js".data,
             "q\n// [DEBUG-HELPER:bb] START\nw\n// [DEBUG-HELPER:bb] END".data)]⟩
          "bb".data).1
        "bb".data).2 = RemoveOutcome.markerNotInSession ∧
    (removeTool
        ⟨[⟨"cc".data, "/h.js".data, 2, 4, "t".data, none, "ts".data⟩],
         [("/h.js".data, "plain line".data)]⟩
        "cc".data).2 = RemoveOutcome.alreadyGone :=
  ⟨remove_twice_amended.1
      ⟨[⟨"bb".data, "/g.js".data, 2, 4, "t".data, none, "ts".data⟩],
       [("/g.js".data,
         "q\n// [DEBUG-HELPER:bb] START\nw\n// [DEBUG-HELPER:bb] END".data)]⟩
      "bb".data (by decide),
   remove_twice_amended.2
      ⟨[⟨"cc".data, "/h.js".data, 2, 4, "t".data, none, "ts".data⟩],
       [("/h.js".data, "plain line".data)]⟩
      "cc".data ⟨"cc".data, "/h.js".data, 2, 4, "t".data, none, "ts".data⟩
      "plain line".data (by decide) (by decide) (by decide)⟩

/--
C5 counterexample: the random double 0.5 is a possible value of the
process-wide random source, its base-36 string is `"0.i"`, and
`generateMarkerId` then returns the single character `"i"` — not an
8-character token.
-/
theorem generateMarkerId_length_counterexample :
    generateMarkerId "0.i".data = "i".data ∧ ("i".data).length ≠ 8 := by
  constructor
  · rfl
  · decide

theorem generateMarkerId_frac (ds : List Char) :
    generateMarkerId ('0' :: '.' :: ds) = ds.take 8 := by
  rw [generateMarkerId, jsSubstring]
  have hlen : ('0' :: '.' :: ds).length = ds.length + 2 := by simp
  rw [hlen]
  have ha : min 2 (ds.length + 2) = 2 := by omega
  rw [ha]
  by_cases h : ds.length + 2 ≤ 10
  · have hb : min 10 (ds.length + 2) = ds.length + 2 := by omega
    rw [hb, Nat.max_eq_right (by omega), Nat.min_eq_left (by omega), ← hlen,
      List.take_length]
    show ds = ds.take 8
    exact (List.take_of_length_le (by omega)).symm
  · have hb : min 10 (ds.length + 2) = 10 := by omega
    rw [hb, Nat.max_eq_right (by omega), Nat.min_eq_left (by omega)]
    show List.drop 2 (List.take 10 ('0' :: '.' :: ds)) = ds.take 8
    rfl

/--
C5 (amended): for every base-36 representation the random source can produce
("0", or "0." followed by base-36 digits, which are exactly the characters
`[a-z0-9]`), `generateMarkerId` returns a token of *at most* 8 characters,
all lowercase alphanumeric; the token can be shorter than 8 (even empty).
-/
theorem generateMarkerId_shape (r : List Char)
    (hr : r = "0".data ∨ ∃ ds, (∀ c ∈ ds, idChar c = true) ∧ r = '0' :: '.' :: ds) :
    (generateMarkerId r).length ≤ 8 ∧ ∀ c ∈ generateMarkerId r, idChar c = true := by
  rcases hr with rfl | ⟨ds, hds, rfl⟩
  · constructor
    · decide
    · intro c hc
      simp [generateMarkerId, jsSubstring] at hc
  · rw [generateMarkerId_frac]
    constructor
    · exact List.length_take_le 8 ds
    · intro c hc
      exact hds c (List.take_subset _ _ hc)

/--
Witness for the marker-id shape theorem at the representation of a typical
random double.
-/
theorem generateMarkerId_shape_witness :
    (generateMarkerId "0.4fzyo82mvyr".data).length ≤ 8 ∧
    ∀ c ∈ generateMarkerId "0.4fzyo82mvyr".data, idChar c = true :=
  generateMarkerId_shape "0.4fzyo82mvyr".data
    (Or.inr ⟨"4fzyo82mvyr".data, by decide, rfl⟩)

/--
C6: `add` fails with the file-not-found outcome when the path does not
exist, with the unsupported-file-type outcome when no pattern matches the
extension, and with the line-out-of-range outcome when the target line lies
outside `[1, lineCount]`; in each failure case the state (including every
file's content) is returned unmodified.
-/
theorem add_error_cases (st : SessionFsState) (path : List Char) (line : Int)
    (markerId label createdAt : List Char) (expression : Option (List Char)) :
    (lookupFile st.files path = none →
      addTool st path line markerId label expression createdAt =
        (st, AddOutcome.fileNotFound)) ∧
    (∀ content, lookupFile st.files path = some content →
      getPatternForFile path = none →
      addTool st path line markerId label expression createdAt =
        (st, AddOutcome.unsupportedFileType)) ∧
    (∀ content p, lookupFile st.files path = some content →
      getPatternForFile path = some p →
      (line < 1 ∨ line > ((splitNl content).length : Int)) →
      addTool st path line markerId label expression createdAt =
        (st, AddOutcome.lineOutOfRange)) := by
  refine ⟨?_, ?_, ?_⟩
  · intro h
    simp [addTool, h]
  · intro content h1 h2
    simp [addTool, h1, h2]
  · intro content p h1 h2 h3
    simp [addTool, h1, h2, h3]

/--
Witness for the `add` failure cases: missing file, `.java` file, and a
one-line `.js` file with target line 5.
-/
theorem add_error_cases_witness :
    addTool (⟨[], []⟩ : SessionFsState) "/a.js".data 1 "m1".data "l".data none "t".data =
      ((⟨[], []⟩ : SessionFsState), AddOutcome.fileNotFound) ∧
    addTool (⟨[], [("/a.java".data, "x".data)]⟩ : SessionFsState) "/a.java".data 1
        "m1".data "l".data none "t".data =
      ((⟨[], [("/a.java".data, "x".data)]⟩ : SessionFsState),
        AddOutcome.unsupportedFileType) ∧
    addTool (⟨[], [("/a.js".data, "x".data)]⟩ : SessionFsState) "/a.js".data 5
        "m1".data "l".data none "t".data =
      ((⟨[], [("/a.js".data, "x".data)]⟩ : SessionFsState), AddOutcome.lineOutOfRange) :=
  ⟨(add_error_cases ⟨[], []⟩ "/a.js".data 1 "m1".data "l".data "t".data none).1 rfl,
   (add_error_cases ⟨[], [("/a.java".data, "x".data)]⟩ "/a.java".data 1 "m1".data
      "l".data "t".data none).2.1 "x".data rfl rfl,
   (add_error_cases ⟨[], [("/a.js".data, "x".data)]⟩ "/a.js".data 5 "m1".data
      "l".data "t".data none).2.2 "x".data JS_TS_PATTERN rfl rfl (by decide)⟩

/--
C3 is wrong on the code for Rust and Go: when `expression` is omitted, the
generic `", {expression}"` replacement fires before the Rust/Go-specific
rules can, so the rendered statements keep their dangling format specifiers
`{:?}` and `%+v` (with the braces/specifier *not* stripped), as this
evaluation of `buildInstrumentationBlock` at the failing input shows.
-/
theorem build_no_expression_keeps_rust_go_specifiers :
    buildInstrumentationBlock RUST_PATTERN "abc123".data "checkpoint".data none [] =
      "// [DEBUG-HELPER:abc123] START\neprintln!(\"[abc123] checkpoint: \x7b:?\x7d\");\n// [DEBUG-HELPER:abc123] END".data ∧
    containsSeq "\x7b:?\x7d".data
      (buildInstrumentationBlock RUST_PATTERN "abc123".data "checkpoint".data none [])
      = true ∧
    buildInstrumentationBlock GO_PATTERN "abc123".data "checkpoint".data none [] =
      "// [DEBUG-HELPER:abc123] START\nfmt.Printf(\"[abc123] checkpoint: %+v\\n\")\n// [DEBUG-HELPER:abc123] END".data ∧
    containsSeq "%+v".data
      (buildInstrumentationBlock GO_PATTERN "abc123".data "checkpoint".data none [])
      = true := by
  refine ⟨rfl, ?_, rfl, ?_⟩ <;> decide

/--
C8 is wrong on the code by one: the loop of `extractErrorContext` runs `i`
from `errorIndex + 1` while `i < errorIndex + maxContext`, so it inspects at
most `maxContext - 1 = 9` lines.  On an error line followed by 10
continuation lines it therefore attaches only the first 9, and the parsed
error match carries that 9-line context.
-/
theorem error_context_caps_at_nine :
    ((("Error: boom".data :: List.replicate 10 "  at f".data).drop 1).all
      isContinuationLine) = true ∧
    (("Error: boom".data :: List.replicate 10 "  at f".data).drop 1).length = 10 ∧
    (extractErrorContextLines ("Error: boom".data :: List.replicate 10 "  at f".data) 0).length
      = 9 ∧
    extractErrorContextLines ("Error: boom".data :: List.replicate 10 "  at f".data) 0
      = List.replicate 9 "  at f".data ∧
    parseLogContent (fun l => isPref "Error".data l) (fun _ => false)
        (joinNl ("Error: boom".data :: List.replicate 10 "  at f".data))
      = [⟨MatchType.error, 1, "Error: boom".data, none,
          some (joinNl (List.replicate 9 "  at f".data))⟩] := by
  refine ⟨?_, ?_, ?_, ?_, ?_⟩ <;> decide

theorem mem_markerOrder (a : List Char) :
    ∀ (ms : List LogMatch) (seen : List (List Char)),
      (a ∈ (markerOrderAux ms seen).map Prod.fst ↔ a ∈ hitMarkerIds ms ∧ a ∉ seen) := by
  intro ms
  induction ms with
  | nil =>
    intro seen
    simp [markerOrderAux, hitMarkerIds]
  | cons m ms2 ih =>
    intro seen
    cases hm : m.marker_id with
    | none =>
      rw [show markerOrderAux (m :: ms2) seen = markerOrderAux ms2 seen from by
        simp [markerOrderAux, hm]]
      rw [ih seen]
      simp [hitMarkerIds, List.filterMap_cons, hm]
    | some id =>
      by_cases hid : id ∈ seen
      · rw [show markerOrderAux (m :: ms2) seen = markerOrderAux ms2 seen from by
          simp [markerOrderAux, hm, hid]]
        rw [ih seen]
        simp only [hitMarkerIds, List.filterMap_cons, hm, List.mem_cons]
        constructor
        · rintro ⟨h1, h2⟩
          exact ⟨Or.inr h1, h2⟩
        · rintro ⟨h1 | h1, h2⟩
          · exact absurd (h1 ▸ hid) h2
          · exact ⟨h1, h2⟩
      · rw [show markerOrderAux (m :: ms2) seen =
            (id, m.line) :: markerOrderAux ms2 (id :: seen) from by
          simp [markerOrderAux, hm, hid]]
        simp only [List.map_cons, List.mem_cons]
        rw [ih (id :: seen)]
        simp only [hitMarkerIds, List.filterMap_cons, hm, List.mem_cons]
        constructor
        · rintro (rfl | ⟨h1, h2⟩)
          · exact ⟨Or.inl rfl, hid⟩
          · constructor
            · exact Or.inr h1
            · intro hs
              exact h2 (by simp [hs])
        · rintro ⟨h1 | h1, h2⟩
          · exact Or.inl h1
          · by_cases ha : a = id
            · exact Or.inl ha
            · exact Or.inr ⟨h1, by simp [ha, h2]⟩

/--
C7: for any session markers `mk1, mk2, mk3` (with `mk2`'s id distinct from
the other two) and any captured text whose marker-tag lines mention exactly
`mk1.id` then `mk3.id` in first-seen order, the correlate tool reports `mk1`
and `mk3` as hit and `mk2` as not hit, lists `mk2` as the only missed
marker, and returns `[mk1.id, mk3.id]` as the inferred execution order.
-/
theorem correlate_accuracy (errT warnT : List Char → Bool) (content : List Char)
    (mk1 mk2 mk3 : InstrumentationMarker)
    (h21 : mk2.id ≠ mk1.id) (h23 : mk2.id ≠ mk3.id)
    (horder : executionOrder (debugMatches errT warnT content) = [mk1.id, mk3.id]) :
    markerStatuses [mk1, mk2, mk3] (debugMatches errT warnT content)
      = [(mk1, true), (mk2, false), (mk3, true)] ∧
    missedMarkers [mk1, mk2, mk3] (debugMatches errT warnT content) = [mk2] ∧
    executionOrder (debugMatches errT warnT content) = [mk1.id, mk3.id] := by
  have hmem : ∀ a, a ∈ hitMarkerIds (debugMatches errT warnT content) ↔
      (a = mk1.id ∨ a = mk3.id) := by
    intro a
    have hiff := mem_markerOrder a (debugMatches errT warnT content) []
    rw [executionOrder] at horder
    rw [horder] at hiff
    constructor
    · intro h
      have := hiff.mpr ⟨h, by simp⟩
      simpa using this
    · intro h
      have : a ∈ [mk1.id, mk3.id] := by simpa using h
      exact (hiff.mp this).1
  have h1 : mk1.id ∈ hitMarkerIds (debugMatches errT warnT content) :=
    (hmem _).mpr (Or.inl rfl)
  have h3 : mk3.id ∈ hitMarkerIds (debugMatches errT warnT content) :=
    (hmem _).mpr (Or.inr rfl)
  have h2 : mk2.id ∉ hitMarkerIds (debugMatches errT warnT content) := by
    intro h
    rcases (hmem _).mp h with h | h
    · exact h21 h
    · exact h23 h
  refine ⟨?_, ?_, horder⟩
  · simp [markerStatuses, h1, h2, h3]
  · simp [missedMarkers, h1, h2, h3]

/--
Witness for the correlation theorem: three concrete markers and a concrete
captured text containing tags for the first and third only.
-/
theorem correlate_accuracy_witness :
    markerStatuses
        [⟨"aa1".data, "/f.js".data, 2, 4, "p".data, none, "ts".data⟩,
         ⟨"cc3".data, "/f.js".data, 6, 8, "q".data, none, "ts".data⟩,
         ⟨"bb2".data, "/f.js".data, 10, 12, "r".data, none, "ts".data⟩]
        (debugMatches (fun _ => false) (fun _ => false)
          "[DEBUG-HELPER:aa1] go\nplain\n[DEBUG-HELPER:bb2] hi\n[DEBUG-HELPER:aa1] again".data)
      = [(⟨"aa1".data, "/f.js".data, 2, 4, "p".data, none, "ts".data⟩, true),
         (⟨"cc3".data, "/f.js".data, 6, 8, "q".data, none, "ts".data⟩, false),
         (⟨"bb2".data, "/f.js".data, 10, 12, "r".data, none, "ts".data⟩, true)] ∧
    missedMarkers
        [⟨"aa1".data, "/f.js".data, 2, 4, "p".data, none, "ts".data⟩,
         ⟨"cc3".data, "/f.js".data, 6, 8, "q".data, none, "ts".data⟩,
         ⟨"bb2".data, "/f.js".data, 10, 12, "r".data, none, "ts".data⟩]
        (debugMatches (fun _ => false) (fun _ => false)
          "[DEBUG-HELPER:aa1] go\nplain\n[DEBUG-HELPER:bb2] hi\n[DEBUG-HELPER:aa1] again".data)
      = [⟨"cc3".data, "/f.js".data, 6, 8, "q".data, none, "ts".data⟩] ∧
    executionOrder
        (debugMatches (fun _ => false) (fun _ => false)
          "[DEBUG-HELPER:aa1] go\nplain\n[DEBUG-HELPER:bb2] hi\n[DEBUG-HELPER:aa1] again".data)
      = ["aa1".data, "bb2".data] :=
  correlate_accuracy (fun _ => false) (fun _ => false)
    "[DEBUG-HELPER:aa1] go\nplain\n[DEBUG-HELPER:bb2] hi\n[DEBUG-HELPER:aa1] again".data
    ⟨"aa1".data, "/f.js".data, 2, 4, "p".data, none, "ts".data⟩
    ⟨"cc3".data, "/f.js".data, 6, 8, "q".data, none, "ts".data⟩
    ⟨"bb2".data, "/f.js".data, 10, 12, "r".data, none, "ts".data⟩
    (by decide) (by decide) (by decide)

theorem getD_append_left {α : Type} (xs ys : List α) (i : Nat) (d : α)
    (h : i < xs.length) : (xs ++ ys).getD i d = xs.getD i d := by
  induction xs generalizing i with
  | nil => simp at h
  | cons a as ih =>
    cases i with
    | zero => rfl
    | succ j => simpa [List.getD] using ih j (by simpa using h)

theorem getD_append_right_my {α : Type} (xs ys : List α) (i : Nat) (d : α) :
    (xs ++ ys).getD (xs.length + i) d = ys.getD i d := by
  induction xs with
  | nil => simp
  | cons a as ih =>
    have harith : (a :: as).length + i = (as.length + i) + 1 := by simp; omega
    rw [harith]
    simpa [List.getD] using ih

theorem getD_take_lt {α : Type} (l : List α) (m i : Nat) (d : α) (h : i < m) :
    (l.take m).getD i d = l.getD i d := by
  induction l generalizing m i with
  | nil => simp
  | cons a as ih =>
    cases m with
    | zero => omega
    | succ m2 =>
      cases i with
      | zero => rfl
      | succ j => simpa [List.getD] using ih m2 j (by omega)

theorem getD_drop_my {α : Type} (l : List α) (m i : Nat) (d : α) :
    (l.drop m).getD i d = l.getD (m + i) d := by
  induction l generalizing m with
  | nil => simp
  | cons a as ih =>
    cases m with
    | zero => simp
    | succ m2 =>
      have : (a :: as).drop (m2 + 1) = as.drop m2 := rfl
      rw [this, ih]
      have harith : m2 + 1 + i = (m2 + i) + 1 := by omega
      rw [harith]
      simp [List.getD]

theorem drop_take_drop {α : Type} (l : List α) (k n : Nat) (hk : k ≤ n)
    (hn : n ≤ l.length) : (l.take n).drop k ++ l.drop n = l.drop k := by
  conv_rhs => rw [← List.take_append_drop n l]
  rw [List.drop_append_eq_append_drop]
  have : k - (l.take n).length = 0 := by
    rw [List.length_take]
    omega
  rw [this]
  rfl

theorem take_eq_take_append {α : Type} (l : List α) (k n : Nat) (hk : n ≤ k) :
    l.take k = l.take n ++ (l.drop n).take (k - n) := by
  have h : k = n + (k - n) := by omega
  conv_lhs => rw [h]
  rw [List.take_add]

theorem drop_eq_drop_drop {α : Type} (l : List α) (k n : Nat) (hk : n ≤ k) :
    l.drop k = (l.drop n).drop (k - n) := by
  rw [List.drop_drop]
  congr 1
  omega

/--
A scan of content into which a block for a well-formed id was just spliced
after a valid line recognizes that block at the expected position, provided
the substituted log statement is newline-free and is itself neither a start
nor an end marker line.
-/
theorem scan_finds_spliced_block (p : InstrumentationPattern) (hp : p ∈ allPatterns)
    (content markerId label : List Char) (expression : Option (List Char)) (k : Nat)
    (hk1 : 1 ≤ k) (hk2 : k ≤ (splitNl content).length)
    (hid1 : markerId ≠ []) (hid2 : ∀ c ∈ markerId, idChar c = true)
    (hlog1 : ∀ c ∈ renderLogLine p markerId label expression, c ≠ '\n')
    (hlog2 : isStartMarker (renderLogLine p markerId label expression) = false)
    (hlog3 : isEndMarker (renderLogLine p markerId label expression) = false) :
    ∃ b ∈ findInstrumentationBlocks (spliceBlock p markerId label expression k content),
      b.markerId = markerId ∧ b.startLine = k + 1 ∧ b.endLine = k + 3 := by
  have hflat0 := mem_splitNl_flat content
  have htmem : (splitNl content).getD (k - 1) [] ∈ splitNl content :=
    getD_mem _ _ _ (by omega)
  have hind : ∀ c ∈ indentOf content k, jsSpace c = true :=
    fun c hc => (mem_takeWhile jsSpace _ c hc).1
  have hindnl : ∀ c ∈ indentOf content k, c ≠ '\n' :=
    fun c hc => hflat0 _ htmem c (mem_takeWhile jsSpace _ c hc).2
  have hindcl : ∀ c ∈ indentOf content k, c ≠ '[' :=
    fun c hc => jsSpace_no_lbrack c (hind c hc)
  obtain ⟨hsL1, hsL2, heL1, heL2, heL3, _, _⟩ :=
    block_line_facts p hp (indentOf content k) markerId hind hindnl hid1 hid2
  have hmid1 : isStartMarker (indentOf content k ++ renderLogLine p markerId label expression)
      = false := by
    rw [isStartMarker_append_clean _ _ hindcl]
    exact hlog2
  have hmid2 : isEndMarker (indentOf content k ++ renderLogLine p markerId label expression)
      = false := by
    rw [isEndMarker_append_clean _ _ hindcl]
    exact hlog3
  have hmidflat : ∀ c ∈ indentOf content k ++ renderLogLine p markerId label expression,
      c ≠ '\n' := by
    intro c hc
    rcases List.mem_append.mp hc with hc | hc
    · exact hindnl c hc
    · exact hlog1 c hc
  have hsplit := splitNl_spliceBlock p hp content markerId label expression k hk1 hk2 hid1 hid2
  rw [splitNl_eq_single _ hmidflat] at hsplit
  rw [findInstrumentationBlocks, hsplit]
  obtain ⟨b, hb, p1, p2, p3⟩ :=
    findAux_recognizes markerId
      (indentOf content k ++ p.start_marker markerId)
      (indentOf content k ++ p.end_marker markerId)
      [indentOf content k ++ renderLogLine p markerId label expression]
      ((splitNl content).drop k)
      hsL1 hsL2
      (by
        intro l hl
        rcases List.mem_cons.mp hl with hl | hl
        · subst hl
          exact ⟨hmid1, fun hx => by rw [hmid2] at hx; exact absurd hx.1 (by simp)⟩
        · simp at hl)
      heL1 heL2 heL3 ((splitNl content).take k) 1 none
  rw [List.length_take] at p2 p3
  exact ⟨b, hb, p1, by omega, by simp at p3; omega⟩

theorem removeAux_two_blocks_before (idA sA mA eA sB mB eB : List Char)
    (T1 T2 T3 : List (List Char))
    (hT1 : ∀ l ∈ T1, ¬(isStartMarker l = true ∧ extractMarkerId l = some idA) ∧
      ¬(isEndMarker l = true ∧ extractMarkerId l = some idA))
    (hT2 : ∀ l ∈ T2, ¬(isStartMarker l = true ∧ extractMarkerId l = some idA) ∧
      ¬(isEndMarker l = true ∧ extractMarkerId l = some idA))
    (hT3 : ∀ l ∈ T3, ¬(isStartMarker l = true ∧ extractMarkerId l = some idA) ∧
      ¬(isEndMarker l = true ∧ extractMarkerId l = some idA))
    (hB : ∀ l ∈ [sB, mB, eB], ¬(isStartMarker l = true ∧ extractMarkerId l = some idA) ∧
      ¬(isEndMarker l = true ∧ extractMarkerId l = some idA))
    (hsA1 : isStartMarker sA = true) (hsA2 : extractMarkerId sA = some idA)
    (hmA : ¬(isEndMarker mA = true ∧ extractMarkerId mA = some idA))
    (heA1 : isStartMarker eA = false) (heA2 : isEndMarker eA = true)
    (heA3 : extractMarkerId eA = some idA) :
    removeAux idA false (T1 ++ sB :: ([mB] ++ eB :: (T2 ++ sA :: ([mA] ++ eA :: T3))))
      = T1 ++ sB :: ([mB] ++ eB :: (T2 ++ T3)) := by
  rw [removeAux_keep _ _ _ hT1]
  congr 1
  show removeAux idA false ([sB, mB, eB] ++ (T2 ++ sA :: ([mA] ++ eA :: T3)))
    = [sB, mB, eB] ++ (T2 ++ T3)
  rw [removeAux_keep _ _ _ hB]
  congr 1
  rw [removeAux_keep _ _ _ hT2]
  congr 1
  rw [removeAux_block _ _ _ _ _ hsA1 hsA2 (by intro l hl; simp at hl; exact hl ▸ hmA)
    heA1 heA2 heA3]
  have h0 : removeAux idA false ([] : List (List Char)) = [] := rfl
  have := removeAux_keep idA T3 [] hT3
  simpa [h0] using this

theorem removeAux_two_blocks_after (idA sA mA eA sB mB eB : List Char)
    (T1 T2 T3 : List (List Char))
    (hT1 : ∀ l ∈ T1, ¬(isStartMarker l = true ∧ extractMarkerId l = some idA) ∧
      ¬(isEndMarker l = true ∧ extractMarkerId l = some idA))
    (hT2 : ∀ l ∈ T2, ¬(isStartMarker l = true ∧ extractMarkerId l = some idA) ∧
      ¬(isEndMarker l = true ∧ extractMarkerId l = some idA))
    (hT3 : ∀ l ∈ T3, ¬(isStartMarker l = true ∧ extractMarkerId l = some idA) ∧
      ¬(isEndMarker l = true ∧ extractMarkerId l = some idA))
    (hB : ∀ l ∈ [sB, mB, eB], ¬(isStartMarker l = true ∧ extractMarkerId l = some idA) ∧
      ¬(isEndMarker l = true ∧ extractMarkerId l = some idA))
    (hsA1 : isStartMarker sA = true) (hsA2 : extractMarkerId sA = some idA)
    (hmA : ¬(isEndMarker mA = true ∧ extractMarkerId mA = some idA))
    (heA1 : isStartMarker eA = false) (heA2 : isEndMarker eA = true)
    (heA3 : extractMarkerId eA = some idA) :
    removeAux idA false (T1 ++ sA :: ([mA] ++ eA :: (T2 ++ sB :: ([mB] ++ eB :: T3))))
      = T1 ++ (T2 ++ sB :: ([mB] ++ eB :: T3)) := by
  rw [removeAux_keep _ _ _ hT1]
  congr 1
  rw [removeAux_block _ _ _ _ _ hsA1 hsA2 (by intro l hl; simp at hl; exact hl ▸ hmA)
    heA1 heA2 heA3]
  rw [removeAux_keep _ _ _ hT2]
  congr 1
  show removeAux idA false ([sB, mB, eB] ++ T3) = [sB, mB, eB] ++ T3
  rw [removeAux_keep _ _ _ hB]
  congr 1
  have h0 : removeAux idA false ([] : List (List Char)) = [] := rfl
  have := removeAux_keep idA T3 [] hT3
  simpa [h0] using this

/--
C9: inserting marker A's block (after line `n`) and then marker B's block
(after line `k` of the modified file, outside A's block), then removing only
marker A, yields exactly the file that would result from inserting B alone
into the original content (so every line of B's block and every other non-A
line is byte-for-byte intact and in order), and a subsequent scan of the
resulting content still recognizes B's block at its position.  Marker ids
are distinct well-formed fresh tokens and the rendered log statements are
newline-free non-marker lines.
-/
theorem add_add_remove_noninterference (p : InstrumentationPattern)
    (hp : p ∈ allPatterns) (content idA idB labelA labelB : List Char)
    (exprA exprB : Option (List Char)) (n k : Nat)
    (hn1 : 1 ≤ n) (hn2 : n ≤ (splitNl content).length)
    (hk1 : 1 ≤ k) (hk2 : k ≤ (splitNl content).length + 3)
    (hkpos : k ≤ n ∨ n + 3 ≤ k)
    (hAB : idA ≠ idB)
    (hidA1 : idA ≠ []) (hidA2 : ∀ c ∈ idA, idChar c = true)
    (hidB1 : idB ≠ []) (hidB2 : ∀ c ∈ idB, idChar c = true)
    (hfresh : ∀ l ∈ splitNl content, extractMarkerId l ≠ some idA)
    (hlogA1 : ∀ c ∈ renderLogLine p idA labelA exprA, c ≠ '\n')
    (hlogA2 : isEndMarker (renderLogLine p idA labelA exprA) = false)
    (hlogB1 : ∀ c ∈ renderLogLine p idB labelB exprB, c ≠ '\n')
    (hlogB2 : isStartMarker (renderLogLine p idB labelB exprB) = false)
    (hlogB3 : isEndMarker (renderLogLine p idB labelB exprB) = false) :
    removeInstrumentationBlock
        (spliceBlock p idB labelB exprB k (spliceBlock p idA labelA exprA n content)) idA
      = spliceBlock p idB labelB exprB (if k ≤ n then k else k - 3) content ∧
    ∃ b ∈ findInstrumentationBlocks
        (removeInstrumentationBlock
          (spliceBlock p idB labelB exprB k (spliceBlock p idA labelA exprA n content)) idA),
      b.markerId = idB ∧ b.startLine = (if k ≤ n then k else k - 3) + 1 ∧
      b.endLine = (if k ≤ n then k else k - 3) + 3 := by
  have hflat0 := mem_splitNl_flat content
  have htmemA : (splitNl content).getD (n - 1) [] ∈ splitNl content :=
    getD_mem _ _ _ (by omega)
  have hindA : ∀ c ∈ indentOf content n, jsSpace c = true :=
    fun c hc => (mem_takeWhile jsSpace _ c hc).1
  have hindAnl : ∀ c ∈ indentOf content n, c ≠ '\n' :=
    fun c hc => hflat0 _ htmemA c (mem_takeWhile jsSpace _ c hc).2
  have hindAcl : ∀ c ∈ indentOf content n, c ≠ '[' :=
    fun c hc => jsSpace_no_lbrack c (hindA c hc)
  obtain ⟨hsA1, hsA2, heA1, heA2, heA3, hsAflat, heAflat⟩ :=
    block_line_facts p hp (indentOf content n) idA hindA hindAnl hidA1 hidA2
  have hmAflat : ∀ c ∈ indentOf content n ++ renderLogLine p idA labelA exprA, c ≠ '\n' := by
    intro c hc
    rcases List.mem_append.mp hc with hc | hc
    · exact hindAnl c hc
    · exact hlogA1 c hc
  have hmA2 : isEndMarker (indentOf content n ++ renderLogLine p idA labelA exprA)
      = false := by
    rw [isEndMarker_append_clean _ _ hindAcl]
    exact hlogA2
  have hmA2' : ¬(isEndMarker (indentOf content n ++ renderLogLine p idA labelA exprA) = true ∧
      extractMarkerId (indentOf content n ++ renderLogLine p idA labelA exprA) = some idA) := by
    intro hx
    rw [hmA2] at hx
    exact absurd hx.1 (by simp)
  have hsplitA : splitNl (spliceBlock p idA labelA exprA n content) =
      (splitNl content).take n ++ (indentOf content n ++ p.start_marker idA) ::
        ([indentOf content n ++ renderLogLine p idA labelA exprA] ++
          (indentOf content n ++ p.end_marker idA) :: (splitNl content).drop n) := by
    rw [splitNl_spliceBlock p hp content idA labelA exprA n hn1 hn2 hidA1 hidA2,
      splitNl_eq_single _ hmAflat]
  have hLAlen : (splitNl (spliceBlock p idA labelA exprA n content)).length
      = (splitNl content).length + 3 := by
    rw [hsplitA]
    simp [List.length_take]
    omega
  have hflatA := mem_splitNl_flat (spliceBlock p idA labelA exprA n content)
  have htmemB : (splitNl (spliceBlock p idA labelA exprA n content)).getD (k - 1) []
      ∈ splitNl (spliceBlock p idA labelA exprA n content) :=
    getD_mem _ _ _ (by rw [hLAlen]; omega)
  have hindB : ∀ c ∈ indentOf (spliceBlock p idA labelA exprA n content) k,
      jsSpace c = true :=
    fun c hc => (mem_takeWhile jsSpace _ c hc).1
  have hindBnl : ∀ c ∈ indentOf (spliceBlock p idA labelA exprA n content) k, c ≠ '\n' :=
    fun c hc => hflatA _ htmemB c (mem_takeWhile jsSpace _ c hc).2
  have hindBcl : ∀ c ∈ indentOf (spliceBlock p idA labelA exprA n content) k, c ≠ '[' :=
    fun c hc => jsSpace_no_lbrack c (hindB c hc)
  obtain ⟨hsB1, hsB2, heB1, heB2, heB3, hsBflat, heBflat⟩ :=
    block_line_facts p hp (indentOf (spliceBlock p idA labelA exprA n content) k) idB
      hindB hindBnl hidB1 hidB2
  have hmBflat : ∀ c ∈ indentOf (spliceBlock p idA labelA exprA n content) k ++
      renderLogLine p idB labelB exprB, c ≠ '\n' := by
    intro c hc
    rcases List.mem_append.mp hc with hc | hc
    · exact hindBnl c hc
    · exact hlogB1 c hc
  have hmB1 : isStartMarker (indentOf (spliceBlock p idA labelA exprA n content) k ++
      renderLogLine p idB labelB exprB) = false := by
    rw [isStartMarker_append_clean _ _ hindBcl]
    exact hlogB2
  have hmB2 : isEndMarker (indentOf (spliceBlock p idA labelA exprA n content) k ++
      renderLogLine p idB labelB exprB) = false := by
    rw [isEndMarker_append_clean _ _ hindBcl]
    exact hlogB3
  have hsplitAB : splitNl (spliceBlock p idB labelB exprB k
      (spliceBlock p idA labelA exprA n content)) =
      (splitNl (spliceBlock p idA labelA exprA n content)).take k ++
        (indentOf (spliceBlock p idA labelA exprA n content) k ++ p.start_marker idB) ::
          ([indentOf (spliceBlock p idA labelA exprA n content) k ++
              renderLogLine p idB labelB exprB] ++
            (indentOf (spliceBlock p idA labelA exprA n content) k ++ p.end_marker idB) ::
              (splitNl (spliceBlock p idA labelA exprA n content)).drop k) := by
    rw [splitNl_spliceBlock p hp (spliceBlock p idA labelA exprA n content)
        idB labelB exprB k hk1 (by rw [hLAlen]; omega) hidB1 hidB2,
      splitNl_eq_single _ hmBflat]
  have hBne : (some idB : Option (List Char)) ≠ some idA := by
    intro h
    exact hAB (Option.some.inj h).symm
  have hkeepB : ∀ l ∈
      [indentOf (spliceBlock p idA labelA exprA n content) k ++ p.start_marker idB,
       indentOf (spliceBlock p idA labelA exprA n content) k ++
         renderLogLine p idB labelB exprB,
       indentOf (spliceBlock p idA labelA exprA n content) k ++ p.end_marker idB],
      ¬(isStartMarker l = true ∧ extractMarkerId l = some idA) ∧
      ¬(isEndMarker l = true ∧ extractMarkerId l = some idA) := by
    intro l hl
    rcases List.mem_cons.mp hl with rfl | hl
    · exact ⟨fun hx => hBne (hsB2.symm.trans hx.2), fun hx => hBne (hsB2.symm.trans hx.2)⟩
    rcases List.mem_cons.mp hl with rfl | hl
    · constructor
      · intro hx
        rw [hmB1] at hx
        exact absurd hx.1 (by simp)
      · intro hx
        rw [hmB2] at hx
        exact absurd hx.1 (by simp)
    rcases List.mem_cons.mp hl with rfl | hl
    · exact ⟨fun hx => hBne (heB3.symm.trans hx.2), fun hx => hBne (heB3.symm.trans hx.2)⟩
    · simp at hl
  have hkeepL0 : ∀ l ∈ splitNl content,
      ¬(isStartMarker l = true ∧ extractMarkerId l = some idA) ∧
      ¬(isEndMarker l = true ∧ extractMarkerId l = some idA) :=
    fun l hl => ⟨fun hx => hfresh l hl hx.2, fun hx => hfresh l hl hx.2⟩
  rcases hkpos with hkn | hkn
  · -- B inserted at or before A's insertion point
    have hklen : k ≤ (splitNl content).length := hkn.trans hn2
    simp only [if_pos hkn]
    have htakeA : (splitNl (spliceBlock p idA labelA exprA n content)).take k =
        (splitNl content).take k := by
      rw [hsplitA, List.take_append_eq_append_take]
      have h2 : k - ((splitNl content).take n).length = 0 := by
        rw [List.length_take]
        omega
      rw [h2, List.take_take]
      have h3 : min k n = k := by omega
      rw [h3]
      simp
    have hdropA : (splitNl (spliceBlock p idA labelA exprA n content)).drop k =
        ((splitNl content).take n).drop k ++
          ((indentOf content n ++ p.start_marker idA) ::
            ([indentOf content n ++ renderLogLine p idA labelA exprA] ++
              (indentOf content n ++ p.end_marker idA) :: (splitNl content).drop n)) := by
      rw [hsplitA, List.drop_append_eq_append_drop]
      have h2 : k - ((splitNl content).take n).length = 0 := by
        rw [List.length_take]
        omega
      rw [h2, List.drop_zero]
    have hgetD : (splitNl (spliceBlock p idA labelA exprA n content)).getD (k - 1)
        ([] : List Char) = (splitNl content).getD (k - 1) [] := by
      rw [hsplitA, getD_append_left _ _ _ _ (by rw [List.length_take]; omega),
        getD_take_lt _ _ _ _ (by omega)]
    have hindEq : indentOf (spliceBlock p idA labelA exprA n content) k =
        indentOf content k := by
      simp only [indentOf]
      rw [hgetD]
    have hR : removeAux idA false (splitNl (spliceBlock p idB labelB exprB k
        (spliceBlock p idA labelA exprA n content))) =
        (splitNl content).take k ++
          (indentOf (spliceBlock p idA labelA exprA n content) k ++ p.start_marker idB) ::
            ([indentOf (spliceBlock p idA labelA exprA n content) k ++
                renderLogLine p idB labelB exprB] ++
              (indentOf (spliceBlock p idA labelA exprA n content) k ++ p.end_marker idB) ::
                (splitNl content).drop k) := by
      rw [hsplitAB, htakeA, hdropA,
        removeAux_two_blocks_before idA
          (indentOf content n ++ p.start_marker idA)
          (indentOf content n ++ renderLogLine p idA labelA exprA)
          (indentOf content n ++ p.end_marker idA)
          (indentOf (spliceBlock p idA labelA exprA n content) k ++ p.start_marker idB)
          (indentOf (spliceBlock p idA labelA exprA n content) k ++
            renderLogLine p idB labelB exprB)
          (indentOf (spliceBlock p idA labelA exprA n content) k ++ p.end_marker idB)
          ((splitNl content).take k) (((splitNl content).take n).drop k)
          ((splitNl content).drop n)
          (fun l hl => hkeepL0 l (List.take_subset _ _ hl))
          (fun l hl => hkeepL0 l (List.take_subset _ _ (List.drop_subset _ _ hl)))
          (fun l hl => hkeepL0 l (List.drop_subset _ _ hl))
          hkeepB hsA1 hsA2 hmA2' heA1 heA2 heA3,
        drop_take_drop _ k n hkn hn2]
    have hmBcflat : ∀ c ∈ indentOf content k ++ renderLogLine p idB labelB exprB,
        c ≠ '\n' := by
      rw [← hindEq]
      exact hmBflat
    have hRHSsplit : splitNl (spliceBlock p idB labelB exprB k content) =
        (splitNl content).take k ++ (indentOf content k ++ p.start_marker idB) ::
          ([indentOf content k ++ renderLogLine p idB labelB exprB] ++
            (indentOf content k ++ p.end_marker idB) :: (splitNl content).drop k) := by
      rw [splitNl_spliceBlock p hp content idB labelB exprB k hk1 hklen hidB1 hidB2,
        splitNl_eq_single _ hmBcflat]
    have hc1 : removeInstrumentationBlock (spliceBlock p idB labelB exprB k
        (spliceBlock p idA labelA exprA n content)) idA =
        spliceBlock p idB labelB exprB k content := by
      rw [removeInstrumentationBlock, hR, hindEq, ← hRHSsplit, joinNl_splitNl]
    refine ⟨hc1, ?_⟩
    rw [hc1]
    exact scan_finds_spliced_block p hp content idB labelB exprB k hk1 hklen
      hidB1 hidB2 hlogB1 hlogB2 hlogB3
  · -- B inserted after A's block
    have hnk : ¬(k ≤ n) := by omega
    have hklen3 : k - 3 ≤ (splitNl content).length := by omega
    have hk31 : 1 ≤ k - 3 := by omega
    simp only [if_neg hnk]
    have hsplitA2 : splitNl (spliceBlock p idA labelA exprA n content) =
        ((splitNl content).take n ++
          [indentOf content n ++ p.start_marker idA,
           indentOf content n ++ renderLogLine p idA labelA exprA,
           indentOf content n ++ p.end_marker idA]) ++ (splitNl content).drop n := by
      rw [hsplitA]
      simp
    have hXlen : ((splitNl content).take n ++
        [indentOf content n ++ p.start_marker idA,
         indentOf content n ++ renderLogLine p idA labelA exprA,
         indentOf content n ++ p.end_marker idA]).length = n + 3 := by
      simp [List.length_take]
      omega
    have htakeA : (splitNl (spliceBlock p idA labelA exprA n content)).take k =
        ((splitNl content).take n ++
          [indentOf content n ++ p.start_marker idA,
           indentOf content n ++ renderLogLine p idA labelA exprA,
           indentOf content n ++ p.end_marker idA]) ++
          ((splitNl content).drop n).take (k - (n + 3)) := by
      rw [hsplitA2, List.take_append_eq_append_take,
        List.take_of_length_le (by rw [hXlen]; omega), hXlen]
    have hdropA : (splitNl (spliceBlock p idA labelA exprA n content)).drop k =
        ((splitNl content).drop n).drop (k - (n + 3)) := by
      rw [hsplitA2, List.drop_append_eq_append_drop,
        List.drop_of_length_le (by rw [hXlen]; omega), hXlen]
      simp
    have hgetD : (splitNl (spliceBlock p idA labelA exprA n content)).getD (k - 1)
        ([] : List Char) = (splitNl content).getD (k - 3 - 1) [] ∨
        ((splitNl (spliceBlock p idA labelA exprA n content)).getD (k - 1) [] =
          indentOf content n ++ p.end_marker idA ∧ k = n + 3) := by
      by_cases hk4 : k = n + 3
      · refine Or.inr ⟨?_, hk4⟩
        subst hk4
        rw [hsplitA2, getD_append_left _ _ _ _ (by rw [hXlen]; omega)]
        have harith : n + 3 - 1 = ((splitNl content).take n).length + 2 := by
          rw [List.length_take]
          omega
        rw [harith, getD_append_right_my]
        rfl
      · refine Or.inl ?_
        rw [hsplitA2]
        have harith : k - 1 = (((splitNl content).take n ++
            [indentOf content n ++ p.start_marker idA,
             indentOf content n ++ renderLogLine p idA labelA exprA,
             indentOf content n ++ p.end_marker idA]).length) + (k - n - 4) := by
          rw [hXlen]
          omega
        rw [harith, getD_append_right_my, getD_drop_my]
        congr 1
        omega
    have hindEq : indentOf (spliceBlock p idA labelA exprA n content) k =
        indentOf content (k - 3) := by
      obtain ⟨c0, crest, hc0sp, hcmt, hsm, hem⟩ := pattern_marker_shape p hp
      rcases hgetD with hg | ⟨hg, hk4⟩
      · simp only [indentOf]
        rw [hg]
      · simp only [indentOf]
        rw [hg]
        have heAshape : indentOf content n ++ p.end_marker idA =
            indentOf content n ++ c0 :: (crest ++ (tagStr idA ++ " END".data)) := by
          rw [hem]
          simp
        rw [heAshape,
          takeWhile_all_app jsSpace (indentOf content n) c0
            (crest ++ (tagStr idA ++ " END".data)) hindA hc0sp]
        have harith : k - 3 - 1 = n - 1 := by omega
        rw [harith]
        simp [indentOf]
    have hR : removeAux idA false (splitNl (spliceBlock p idB labelB exprB k
        (spliceBlock p idA labelA exprA n content))) =
        (splitNl content).take n ++
          (((splitNl content).drop n).take (k - (n + 3)) ++
            (indentOf (spliceBlock p idA labelA exprA n content) k ++
              p.start_marker idB) ::
              ([indentOf (spliceBlock p idA labelA exprA n content) k ++
                  renderLogLine p idB labelB exprB] ++
                (indentOf (spliceBlock p idA labelA exprA n content) k ++
                  p.end_marker idB) ::
                  ((splitNl content).drop n).drop (k - (n + 3)))) := by
      rw [hsplitAB, htakeA, hdropA]
      have hshape : (((splitNl content).take n ++
          [indentOf content n ++ p.start_marker idA,
           indentOf content n ++ renderLogLine p idA labelA exprA,
           indentOf content n ++ p.end_marker idA]) ++
          ((splitNl content).drop n).take (k - (n + 3))) ++
          (indentOf (spliceBlock p idA labelA exprA n content) k ++
            p.start_marker idB) ::
            ([indentOf (spliceBlock p idA labelA exprA n content) k ++
                renderLogLine p idB labelB exprB] ++
              (indentOf (spliceBlock p idA labelA exprA n content) k ++
                p.end_marker idB) ::
                ((splitNl content).drop n).drop (k - (n + 3))) =
          (splitNl content).take n ++
            (indentOf content n ++ p.start_marker idA) ::
              ([indentOf content n ++ renderLogLine p idA labelA exprA] ++
                (indentOf content n ++ p.end_marker idA) ::
                  (((splitNl content).drop n).take (k - (n + 3)) ++
                    (indentOf (spliceBlock p idA labelA exprA n content) k ++
                      p.start_marker idB) ::
                      ([indentOf (spliceBlock p idA labelA exprA n content) k ++
                          renderLogLine p idB labelB exprB] ++
                        (indentOf (spliceBlock p idA labelA exprA n content) k ++
                          p.end_marker idB) ::
                          ((splitNl content).drop n).drop (k - (n + 3))))) := by
        simp
      rw [hshape,
        removeAux_two_blocks_after idA
          (indentOf content n ++ p.start_marker idA)
          (indentOf content n ++ renderLogLine p idA labelA exprA)
          (indentOf content n ++ p.end_marker idA)
          (indentOf (spliceBlock p idA labelA exprA n content) k ++ p.start_marker idB)
          (indentOf (spliceBlock p idA labelA exprA n content) k ++
            renderLogLine p idB labelB exprB)
          (indentOf (spliceBlock p idA labelA exprA n content) k ++ p.end_marker idB)
          ((splitNl content).take n) (((splitNl content).drop n).take (k - (n + 3)))
          (((splitNl content).drop n).drop (k - (n + 3)))
          (fun l hl => hkeepL0 l (List.take_subset _ _ hl))
          (fun l hl => hkeepL0 l (List.drop_subset _ _ (List.take_subset _ _ hl)))
          (fun l hl => hkeepL0 l (List.drop_subset _ _ (List.drop_subset _ _ hl)))
          hkeepB hsA1 hsA2 hmA2' heA1 heA2 heA3]
    have hmBcflat : ∀ c ∈ indentOf content (k - 3) ++ renderLogLine p idB labelB exprB,
        c ≠ '\n' := by
      rw [← hindEq]
      exact hmBflat
    have hRHSsplit : splitNl (spliceBlock p idB labelB exprB (k - 3) content) =
        (splitNl content).take (k - 3) ++
          (indentOf content (k - 3) ++ p.start_marker idB) ::
            ([indentOf content (k - 3) ++ renderLogLine p idB labelB exprB] ++
              (indentOf content (k - 3) ++ p.end_marker idB) ::
                (splitNl content).drop (k - 3)) := by
      rw [splitNl_spliceBlock p hp content idB labelB exprB (k - 3) hk31 hklen3
        hidB1 hidB2, splitNl_eq_single _ hmBcflat]
    have htakeSplit : (splitNl content).take (k - 3) =
        (splitNl content).take n ++ ((splitNl content).drop n).take (k - (n + 3)) := by
      rw [take_eq_take_append _ (k - 3) n (by omega)]
      have harith : k - 3 - n = k - (n + 3) := by omega
      rw [harith]
    have hdropSplit : (splitNl content).drop (k - 3) =
        ((splitNl content).drop n).drop (k - (n + 3)) := by
      rw [drop_eq_drop_drop _ (k - 3) n (by omega)]
      have harith : k - 3 - n = k - (n + 3) := by omega
      rw [harith]
    have hc1 : removeInstrumentationBlock (spliceBlock p idB labelB exprB k
        (spliceBlock p idA labelA exprA n content)) idA =
        spliceBlock p idB labelB exprB (k - 3) content := by
      rw [removeInstrumentationBlock, hR, hindEq, ← joinNl_splitNl
        (spliceBlock p idB labelB exprB (k - 3) content), hRHSsplit, htakeSplit,
        hdropSplit]
      simp
    refine ⟨hc1, ?_⟩
    rw [hc1]
    exact scan_finds_spliced_block p hp content idB labelB exprB (k - 3) hk31 hklen3
      hidB1 hidB2 hlogB1 hlogB2 hlogB3

/--
Witness for the non-interference theorem: a two-line JS file, marker A after
line 1 and marker B after line 4 of the modified file (right after A's
block).
-/
theorem add_add_remove_noninterference_witness :
    removeInstrumentationBlock
        (spliceBlock JS_TS_PATTERN "bb".data "u".data (some "y".data) 4
          (spliceBlock JS_TS_PATTERN "aa".data "t".data (some "x".data) 1 "a\nb".data))
        "aa".data
      = spliceBlock JS_TS_PATTERN "bb".data "u".data (some "y".data)
          (if 4 ≤ 1 then 4 else 4 - 3) "a\nb".data ∧
    ∃ b ∈ findInstrumentationBlocks
        (removeInstrumentationBlock
          (spliceBlock JS_TS_PATTERN "bb".data "u".data (some "y".data) 4
            (spliceBlock JS_TS_PATTERN "aa".data "t".data (some "x".data) 1 "a\nb".data))
          "aa".data),
      b.markerId = "bb".data ∧ b.startLine = (if 4 ≤ 1 then 4 else 4 - 3) + 1 ∧
      b.endLine = (if 4 ≤ 1 then 4 else 4 - 3) + 3 :=
  add_add_remove_noninterference JS_TS_PATTERN (List.mem_cons_self _ _) "a\nb".data
    "aa".data "bb".data "t".data "u".data (some "x".data) (some "y".data) 1 4
    (by decide) (by decide) (by decide) (by decide) (Or.inr (by decide)) (by decide)
    (by decide) (by decide) (by decide) (by decide) (by decide) (by decide) (by decide)
    (by decide) (by decide) (by decide)

end DebugHelper
